import Mathlib

/-!
# slock: keyboard-layout parser, password loop and grab acquisition

A shallow embedding of `src/slock.c`.

Conventions of the embedding.

* A C string is the list of the characters that stand before its terminating
  NUL; `char` values are Lean `Char`s and the `<ctype.h>` predicates are the
  ones of the "C" locale (the program never calls `setlocale`).
* An array that the C code leaves uninitialised is a parameter of the model
  (`sym0` for `sym` in `kb_parse_atom`, `passwd0` for `passwd` in `readpw`).
* `int` counters (`paren`, `found_index`, `index`) are `Int`; none of them can
  leave the range of a C `int` on a string shorter than 2^31 characters.
* Calls into Xlib that only have an effect on the X server are recorded in a
  list of `XCall`s; answers of the X server are parameters.
* Keysym constants and the keysym classification macros are the ones of the
  X11 headers that `slock.c` includes.
-/

namespace Slock

/-! ## Keyboard layout name parser (`slock.c` lines 38-155) -/

/-- The `Keyboard` record: device identifier and the 16-byte `layout` field, held as the
C string it contains (the `desc` pointer is a handle into Xlib and is not modelled). -/
structure Keyboard where
  device_id : Nat
  layout : List Char
deriving DecidableEq, Repr

/-- The table `nonsyms` of `kb_goodsym`. -/
def nonsyms : List (List Char) :=
  ["group".toList, "inet".toList, "ctr".toList, "pc".toList, "ctrl".toList,
   "capslock".toList, "compose".toList, "terminate".toList, "eurosign".toList]

/-- The `for` loop of `kb_goodsym`: the first table entry equal to `sym` (`strcmp == 0`)
makes the answer `false`. -/
def kb_goodsym_loop (sym : List Char) : List (List Char) → Bool
  | [] => true
  | n :: rest => if sym = n then false else kb_goodsym_loop sym rest

/-- The function `kb_goodsym`. -/
def kb_goodsym (sym : List Char) : Bool :=
  kb_goodsym_loop sym nonsyms

/-- The function `kb_goodchar`: `isdigit(ch) || isalpha(ch) || ch == '_' || ch == '-'`. -/
def kb_goodchar (ch : Char) : Bool :=
  ch.isDigit || ch.isAlpha || ch == '_' || ch == '-'

/-- The local `enum {ok, skip, broken}` of `kb_parse_atom`. -/
inductive TokState where
  | ok
  | skip
  | broken
deriving DecidableEq, Repr

/-- The local variables of `kb_parse_atom` that live across loop iterations. `sym` is the
C string held in the array `sym[16]`. -/
structure Scan where
  state : TokState
  paren : Int
  sym : List Char
  symlen : Nat
  found_index : Int
deriving DecidableEq, Repr

/-- What one loop iteration of `kb_parse_atom` does: either `return 0` after
`strcpy(result, sym)`, or go on with new values of the locals. -/
inductive Outcome where
  | ret (result : List Char)
  | next (s : Scan)
deriving DecidableEq, Repr

/-- The body of the `for` loop of `kb_parse_atom` for the character `ch`.
Storing a character, `sym[symlen++] = ch; sym[symlen] = 0`, makes the string in `sym`
its first `symlen` characters followed by `ch`. -/
def kb_parse_char (index : Int) (s : Scan) (ch : Char) : Outcome :=
  if ch = '+' ∨ ch = '_' then
    if s.paren = 0 then
      if s.state ≠ TokState.broken ∧ s.paren = 0 ∧ kb_goodsym s.sym = true then
        if s.found_index = index then
          Outcome.ret s.sym
        else
          Outcome.next { s with found_index := s.found_index + 1,
                                state := TokState.ok, sym := [], symlen := 0 }
      else
        Outcome.next { s with state := TokState.ok, sym := [], symlen := 0 }
    else
      Outcome.next s
  else if s.state = TokState.ok ∧ ch = '(' then
    Outcome.next { s with paren := s.paren + 1 }
  else if s.state = TokState.ok ∧ ch = ')' then
    Outcome.next { s with paren := s.paren - 1 }
  else if s.state = TokState.ok ∧ ch = ':' then
    Outcome.next { s with state := TokState.skip }
  else if s.state = TokState.ok ∧ kb_goodchar ch = true then
    if s.paren = 0 ∧ s.symlen < 15 then
      Outcome.next { s with sym := s.sym.take s.symlen ++ [ch], symlen := s.symlen + 1 }
    else
      Outcome.next s
  else if s.state = TokState.ok then
    Outcome.next { s with state := TokState.broken }
  else
    Outcome.next s

/-- The `for` loop of `kb_parse_atom` over the characters that are still to be read. -/
def kb_parse_loop (index : Int) : Scan → List Char → Outcome
  | s, [] => Outcome.next s
  | s, ch :: rest =>
    match kb_parse_char index s ch with
    | Outcome.ret r => Outcome.ret r
    | Outcome.next s1 => kb_parse_loop index s1 rest

/-- The values of the locals of `kb_parse_atom` before the loop; `sym0` is what the
uninitialised array `sym` happens to hold. -/
def kb_parse_init (sym0 : List Char) : Scan :=
  { state := TokState.ok, paren := 0, sym := sym0, symlen := 0, found_index := 0 }

/-- The end of `kb_parse_atom`: `return 0` was reached inside the loop, or the loop ran to
the end of the string and the check after it decides between `return 0` and `return 1`.
The pair is the return value and the string held by the buffer `result` afterwards. -/
def kb_parse_end (index : Int) (result0 : List Char) : Outcome → Int × List Char
  | Outcome.ret r => (0, r)
  | Outcome.next s =>
    if s.state ≠ TokState.broken ∧ s.paren = 0 ∧ kb_goodsym s.sym = true then
      if s.found_index = index then (0, s.sym) else (1, result0)
    else (1, result0)

/-- The function `kb_parse_atom`: the returned pair is the return value and the string
held by the buffer `result` afterwards (`result0` is what it held before). -/
def kb_parse_atom (sym0 : List Char) (symbols : List Char) (index : Int)
    (result0 : List Char) : Int × List Char :=
  kb_parse_end index result0 (kb_parse_loop index (kb_parse_init sym0) symbols)

/-- The function `kb_load_layout`: `kbsC` is the atom name and `group` the keyboard group
that the X server answers with; the return value of `kb_parse_atom` is dropped. -/
def kb_load_layout (sym0 : List Char) (kbsC : List Char) (group : Nat) (kb : Keyboard) :
    Keyboard :=
  { kb with layout := (kb_parse_atom sym0 kbsC (group : Int) kb.layout).2 }

/-- The `Keyboard` as `main` sets it up before the first `kb_load_layout`:
`device_id = XkbUseCoreKbd` (0x0100) and `strcpy(kb.layout, "unknown")`. -/
def main_kb : Keyboard :=
  { device_id := 0x0100, layout := "unknown".toList }

/-! ## Calls into Xlib -/

/-- The Xlib calls (and `usleep`) that the model records, in the order they are made.
`XGrabPointer` and `XGrabKeyboard` carry the answer (`true` for `GrabSuccess`);
per-screen calls carry the screen, `XSetWindowBackground` also the index into `colors`. -/
inductive XCall where
  | XBell
  | XSetWindowBackground (screen : Nat) (color : Nat)
  | XRaiseWindow (screen : Nat)
  | XGrabPointer (answer : Bool)
  | XGrabKeyboard (answer : Bool)
  | usleep (usec : Nat)
  | XUngrabPointer
  | XFreeColors
  | XFreePixmap
  | XDestroyWindow
  | XSelectInput
deriving DecidableEq, Repr

/-! ## Password loop (`readpw`, `slock.c` lines 206-293) -/

/-- Keysym `XK_BackSpace` of `<X11/keysymdef.h>`. -/
def XK_BackSpace : Nat := 0xff08

/-- Keysym `XK_Return` of `<X11/keysymdef.h>`. -/
def XK_Return : Nat := 0xff0d

/-- Keysym `XK_Escape` of `<X11/keysymdef.h>`. -/
def XK_Escape : Nat := 0xff1b

/-- Keysym `XK_KP_Enter` of `<X11/keysymdef.h>`. -/
def XK_KP_Enter : Nat := 0xff8d

/-- Keysym `XK_KP_0` of `<X11/keysymdef.h>`. -/
def XK_KP_0 : Nat := 0xffb0

/-- Keysym `XK_KP_9` of `<X11/keysymdef.h>`. -/
def XK_KP_9 : Nat := 0xffb9

/-- Keysym `XK_0` of `<X11/keysymdef.h>`. -/
def XK_0 : Nat := 0x0030

/-- Macro `IsKeypadKey` of `<X11/Xutil.h>`: from `XK_KP_Space` to `XK_KP_Equal`. -/
def IsKeypadKey (keysym : Nat) : Bool :=
  decide (0xff80 ≤ keysym) && decide (keysym ≤ 0xffbd)

/-- Macro `IsPrivateKeypadKey` of `<X11/Xutil.h>`. -/
def IsPrivateKeypadKey (keysym : Nat) : Bool :=
  decide (0x11000000 ≤ keysym) && decide (keysym ≤ 0x1100FFFF)

/-- Macro `IsPFKey` of `<X11/Xutil.h>`: from `XK_KP_F1` to `XK_KP_F4`. -/
def IsPFKey (keysym : Nat) : Bool :=
  decide (0xff91 ≤ keysym) && decide (keysym ≤ 0xff94)

/-- Macro `IsFunctionKey` of `<X11/Xutil.h>`: from `XK_F1` to `XK_F35`. -/
def IsFunctionKey (keysym : Nat) : Bool :=
  decide (0xffbe ≤ keysym) && decide (keysym ≤ 0xffe0)

/-- Macro `IsMiscFunctionKey` of `<X11/Xutil.h>`: from `XK_Select` to `XK_Break`. -/
def IsMiscFunctionKey (keysym : Nat) : Bool :=
  decide (0xff60 ≤ keysym) && decide (keysym ≤ 0xff6b)

/-- The function `iscntrl` of `<ctype.h>` in the "C" locale, on a byte. -/
def iscntrl (c : Nat) : Bool :=
  decide (c < 0x20) || c == 0x7f

/-- An event as `XNextEvent` delivers it. For a `KeyPress`, what `XLookupString` answers:
the keysym and the bytes it stores in `buf`, whose number is the return value `num`.
Every other type of event is `other`. -/
inductive XEvent where
  | KeyPress (ksym : Nat) (buf : List Nat)
  | other
deriving DecidableEq, Repr

/-- The return value `num` of `XLookupString` for an event (0 when it is no key press). -/
def XEvent.num : XEvent → Nat
  | XEvent.KeyPress _ buf => buf.length
  | XEvent.other => 0

/-- The variables of `readpw`: the global `running`, the locals `len`, `llen` and the
array `passwd`, and the calls made so far. -/
structure PwState where
  running : Bool
  len : Nat
  llen : Nat
  passwd : List Nat
  calls : List XCall
deriving DecidableEq, Repr

/-- Lines 235-240 of `readpw`: keypad Enter becomes Return, keypad digits become digits. -/
def normalise_keysym (ksym : Nat) : Nat :=
  if IsKeypadKey ksym = true then
    if ksym = XK_KP_Enter then XK_Return
    else if XK_KP_0 ≤ ksym ∧ ksym ≤ XK_KP_9 then (ksym - XK_KP_0) + XK_0
    else ksym
  else ksym

/-- Lines 241-243 of `readpw`: the keys after which the loop body does `continue`. -/
def ignored_keysym (ksym : Nat) : Bool :=
  IsFunctionKey ksym || IsKeypadKey ksym || IsMiscFunctionKey ksym || IsPFKey ksym
    || IsPrivateKeypadKey ksym

/-- The `switch(ksym)` of `readpw` (lines 245-270). The verifier is handed the
NUL-terminated string that starts at `passwd`; as `passwd[len] = 0` has just been
written, what it can read is within `passwd[0..len)`, so it is a function `verify` of
those bytes (`!!strcmp(crypt(passwd, pws), pws)` is 0 exactly when it accepts them).
`len` is an `unsigned int`: sums are taken modulo 2^32. -/
def readpw_switch (verify : List Nat → Bool) (st : PwState) (ksym : Nat) (buf : List Nat) :
    PwState :=
  if ksym = XK_Return then
    let running := !verify (st.passwd.take st.len)
    { st with
      passwd := st.passwd.set st.len 0,
      running := running,
      calls := if running = true then st.calls ++ [XCall.XBell] else st.calls,
      len := 0 }
  else if ksym = XK_Escape then
    { st with len := 0 }
  else if ksym = XK_BackSpace then
    if st.len ≠ 0 then { st with len := st.len - 1 } else st
  else
    if buf.length ≠ 0 ∧ iscntrl (buf.headD 0) = false
        ∧ (st.len + buf.length) % 2 ^ 32 < 256 then
      { st with
        passwd := st.passwd.take st.len ++ (buf ++ st.passwd.drop (st.len + buf.length)),
        len := (st.len + buf.length) % 2 ^ 32 }
    else st

/-- Lines 271-280 of `readpw`: the background colour follows the emptiness of the buffer on
every screen, then `llen = len`. -/
def readpw_feedback (nscreens : Nat) (st : PwState) : PwState :=
  { st with
    calls :=
      if st.llen = 0 ∧ st.len ≠ 0 then
        st.calls ++ (List.range nscreens).map (fun screen => XCall.XSetWindowBackground screen 1)
      else if st.llen ≠ 0 ∧ st.len = 0 then
        st.calls ++ (List.range nscreens).map (fun screen => XCall.XSetWindowBackground screen 0)
      else st.calls,
    llen := st.len }

/-- The body of the `while` loop of `readpw` for one event. The repainting of the layout
label at the end of a key press (`kb_load_layout`, `XClearWindow`, `XDrawString`) reads
and writes none of the variables of `PwState`; it is `kb_load_layout` above. -/
def readpw_event (verify : List Nat → Bool) (nscreens : Nat) (st : PwState) :
    XEvent → PwState
  | XEvent.KeyPress ksym buf =>
    if ignored_keysym (normalise_keysym ksym) = true then st
    else readpw_feedback nscreens (readpw_switch verify st (normalise_keysym ksym) buf)
  | XEvent.other =>
    { st with calls := st.calls ++ (List.range nscreens).map XCall.XRaiseWindow }

/-- The `while(running && !XNextEvent(dpy, &ev))` loop of `readpw` over the events that the
X server delivers (`XNextEvent` returns 0); at the end of the list the loop waits. -/
def readpw_loop (verify : List Nat → Bool) (nscreens : Nat) : PwState → List XEvent → PwState
  | st, [] => st
  | st, ev :: rest =>
    if st.running = true then readpw_loop verify nscreens (readpw_event verify nscreens st ev) rest
    else st

/-- The function `readpw`: `len = llen = 0; running = True;` and the loop. `passwd0` is
what the uninitialised array `passwd` happens to hold. -/
def readpw (verify : List Nat → Bool) (nscreens : Nat) (passwd0 : List Nat)
    (events : List XEvent) : PwState :=
  readpw_loop verify nscreens
    { running := true, len := 0, llen := 0, passwd := passwd0, calls := [] } events

/-! ## Grab acquisition (`lockscreen`, `unlockscreen`, `main`, lines 295-374 and 420-424) -/

/-- The `Lock` record; of its fields only `screen` is modelled, the others are handles of
resources of the X server. -/
structure Lock where
  screen : Int
deriving DecidableEq, Repr

/-- The retry loop `for(len = 1000; len; len--) { if(grab() == GrabSuccess) break;
usleep(1000); }` from the value `len` of the counter on, `attempt` requests having been
made before; `answer k` is what the X server answers to request number `k`. The result is
the value of `len` after the loop and the calls made. -/
def grab_retry (request : Bool → XCall) (answer : Nat → Bool) : Nat → Nat → Nat × List XCall
  | 0, _ => (0, [])
  | len + 1, attempt =>
    if answer attempt = true then (len + 1, [request true])
    else
      ((grab_retry request answer len (attempt + 1)).1,
       request false :: XCall.usleep 1000 :: (grab_retry request answer len (attempt + 1)).2)

/-- The function `unlockscreen`. -/
def unlockscreen (dpy_null : Bool) (lock : Option Lock) : List XCall :=
  if dpy_null = true ∨ lock = none then []
  else [XCall.XUngrabPointer, XCall.XFreeColors, XCall.XFreePixmap, XCall.XDestroyWindow]

/-- The calls of `unlockscreen` on a valid display and lock. -/
def unlock_calls : List XCall :=
  [XCall.XUngrabPointer, XCall.XFreeColors, XCall.XFreePixmap, XCall.XDestroyWindow]

/-- What `lockscreen` gives back: the returned `Lock *` (`none` for `NULL`), the global
`running` afterwards, and the calls made. -/
structure LockResult where
  lock : Option Lock
  running : Bool
  calls : List XCall
deriving DecidableEq, Repr

/-- The function `lockscreen`. `running` is the global on entry, `ptr` and `kbd` are the
answers of the X server to the successive `XGrabPointer` and `XGrabKeyboard` requests.
The creation of the window, colours and cursor (lines 324-349) is not recorded. -/
def lockscreen (dpy_null malloc_ok : Bool) (screen : Int) (ptr kbd : Nat → Bool)
    (running : Bool) : LockResult :=
  if dpy_null = true ∨ screen < 0 then
    { lock := none, running := running, calls := [] }
  else if malloc_ok = false then
    { lock := none, running := running, calls := [] }
  else
    let p := grab_retry XCall.XGrabPointer ptr 1000 0
    let k := if running = true ∧ p.1 > 0 then grab_retry XCall.XGrabKeyboard kbd 1000 0
             else (p.1, [])
    let running1 := running && decide (k.1 > 0)
    if running1 = false then
      { lock := none, running := running1,
        calls := p.2 ++ k.2 ++ unlockscreen dpy_null (some { screen := screen }) }
    else
      { lock := some { screen := screen }, running := running1,
        calls := p.2 ++ k.2 ++ [XCall.XSelectInput] }

/-- The answers of the X server (and of `malloc`) during the `lockscreen` of one screen. -/
structure ScreenAnswers where
  malloc_ok : Bool
  ptr : Nat → Bool
  kbd : Nat → Bool

/-- The loop of `main` over the screens, `locks[screen] = lockscreen(dpy, screen)`, from
`screen` on: the array `locks` and the global `running` afterwards. -/
def main_lock_loop : List ScreenAnswers → Nat → Bool → List (Option Lock) × Bool
  | [], _, running => ([], running)
  | a :: rest, screen, running =>
    let r := lockscreen false a.malloc_ok (screen : Int) a.ptr a.kbd running
    let t := main_lock_loop rest (screen + 1) r.running
    (r.lock :: t.1, t.2)

/-- The number of `XGrabPointer` requests among the calls. -/
def pointer_attempts (calls : List XCall) : Nat :=
  calls.countP (fun c => c == XCall.XGrabPointer true || c == XCall.XGrabPointer false)

/-- The number of `XGrabKeyboard` requests among the calls. -/
def keyboard_attempts (calls : List XCall) : Nat :=
  calls.countP (fun c => c == XCall.XGrabKeyboard true || c == XCall.XGrabKeyboard false)

/-- A key press is an Enter submission when its keysym is Return or keypad Enter. -/
def is_enter : XEvent → Bool
  | XEvent.KeyPress ksym _ => ksym == XK_Return || ksym == XK_KP_Enter
  | XEvent.other => false

/-- A key press is a printable-key event when it reaches the `default` case of the
`switch` with at least one looked-up byte, the first of which is no control character. -/
def is_printable : XEvent → Bool
  | XEvent.KeyPress ksym buf =>
    !ignored_keysym (normalise_keysym ksym)
      && normalise_keysym ksym != XK_Return && normalise_keysym ksym != XK_Escape
      && normalise_keysym ksym != XK_BackSpace
      && buf.length != 0 && !iscntrl (buf.headD 0)
  | XEvent.other => false

/-- The bytes held in the secret buffer, `passwd[0..len)`. -/
def PwState.secret (st : PwState) : List Nat :=
  st.passwd.take st.len

/-- A key press that looks up the single byte `c`, with the keysym of the same value. -/
def key (c : Nat) : XEvent :=
  XEvent.KeyPress c [c]

/-- A verifier that accepts the bytes of `secret` only. -/
def verify_secret : List Nat → Bool :=
  fun bytes => bytes == [115, 51, 99]

/-! ## The identifier grammar of the parser round trip

These definitions follow the wording of the round-trip property, not the code: they say
what a well-formed identifier string is and which names it lists. -/

/-- A character of a token name: alphanumeric or `-`. -/
def name_char (c : Char) : Bool :=
  c.isAlphanum || c == '-'

/-- A character that may stand inside a parenthesised group, parentheses apart:
alphanumeric, `-`, `_` or `+`. -/
def group_char (c : Char) : Bool :=
  c.isAlphanum || c == '-' || c == '_' || c == '+'

/-- The characters `cs` close `depth` open parentheses, never closing more than are open,
end with the parenthesis that closes the outermost one, and are `group_char`s otherwise. -/
def group_tail : List Char → Nat → Bool
  | [], depth => depth == 0
  | _ :: _, 0 => false
  | c :: cs, depth + 1 =>
    if c = '(' then group_tail cs (depth + 2)
    else if c = ')' then group_tail cs depth
    else group_char c && group_tail cs (depth + 1)

/-- A balanced, possibly nested, parenthesised group: `(` followed by a `group_tail`. -/
def is_group : List Char → Bool
  | [] => false
  | c :: cs => c == '(' && group_tail cs 1

/-- A token: its name, its parenthesised group (`[]` when it has none) and the digits that
follow its `:` (`none` when it has no `:`). -/
structure Token where
  name : List Char
  group : List Char
  suffix : Option (List Char)
deriving DecidableEq, Repr

/-- The characters of the `:` suffix of a token. -/
def suffix_chars : Option (List Char) → List Char
  | none => []
  | some digits => ':' :: digits

/-- The characters of a token. -/
def Token.chars (t : Token) : List Char :=
  t.name ++ (t.group ++ suffix_chars t.suffix)

/-- Well-formedness of the `:` suffix: digits only. -/
def suffix_wf : Option (List Char) → Bool
  | none => true
  | some digits => digits.all Char.isDigit

/-- Well-formedness of a token: a non-empty name of at most 15 name characters, an optional
balanced group, an optional `:` followed by digits. -/
def Token.wf (t : Token) : Bool :=
  !t.name.isEmpty && decide (t.name.length ≤ 15) && t.name.all name_char
    && (t.group.isEmpty || is_group t.group) && suffix_wf t.suffix

/-- The characters of the tokens that follow the first one, each with its separator. -/
def more_chars : List (Char × Token) → List Char
  | [] => []
  | p :: rest => p.1 :: (p.2.chars ++ more_chars rest)

/-- The identifier string made of a first token and further tokens with their separators. -/
def ident_chars (first : Token) (more : List (Char × Token)) : List Char :=
  first.chars ++ more_chars more

/-- Every token is well formed and every separator is `+` or `_`. -/
def ident_wf (first : Token) (more : List (Char × Token)) : Bool :=
  first.wf && more.all (fun p => (p.1 == '+' || p.1 == '_') && p.2.wf)

/-- The exclusion set, as the property lists it. -/
def exclusion_set : List (List Char) :=
  ["group".toList, "inet".toList, "ctr".toList, "pc".toList, "ctrl".toList,
   "capslock".toList, "compose".toList, "terminate".toList, "eurosign".toList]

/-- The token names that are not in the exclusion set, in order. -/
def ident_names (first : Token) (more : List (Char × Token)) : List (List Char) :=
  (first.name :: more.map (fun p => p.2.name)).filter (fun n => decide (n ∉ exclusion_set))

/-- The state that the `:` suffix of a token leaves behind. -/
def suffix_state : Option (List Char) → TokState
  | none => TokState.ok
  | some _ => TokState.skip

/-- The locals of `kb_parse_atom` once the token `t` has been read, `found` candidates
having been counted before it. -/
def tok_scan (t : Token) (found : Int) : Scan :=
  { state := suffix_state t.suffix, paren := 0, sym := t.name, symlen := t.name.length,
    found_index := found }

/-- The accumulator invariant of `kb_parse_atom`: `sym` holds `symlen` characters, at most
15, each alphanumeric or `-`. -/
def sym_inv (s : Scan) : Prop :=
  s.sym.length = s.symlen ∧ s.symlen ≤ 15 ∧ ∀ c ∈ s.sym, name_char c = true

/-- The tokens of the identifier string `pc+us+inet(evdev)`. -/
def example_first : Token :=
  { name := "pc".toList, group := [], suffix := none }

/-- The tokens that follow `pc` in `pc+us+inet(evdev)`. -/
def example_more : List (Char × Token) :=
  [('+', { name := "us".toList, group := [], suffix := none }),
   ('+', { name := "inet".toList, group := "(evdev)".toList, suffix := none })]

/-- The single token of the identifier string `us(dvorak):2`. -/
def example_dvorak : Token :=
  { name := "us".toList, group := "(dvorak)".toList, suffix := some "2".toList }

end Slock

namespace Slock

/-! ## Lemmas on the parser -/

theorem kb_goodsym_loop_iff (sym : List Char) (tbl : List (List Char)) :
    kb_goodsym_loop sym tbl = true ↔ sym ∉ tbl := by
  induction tbl with
  | nil => simp [kb_goodsym_loop]
  | cons n rest ih =>
    by_cases h : sym = n
    · simp [kb_goodsym_loop, h]
    · simp [kb_goodsym_loop, h, ih]

theorem kb_goodsym_iff (sym : List Char) : kb_goodsym sym = true ↔ sym ∉ exclusion_set := by
  unfold kb_goodsym
  rw [kb_goodsym_loop_iff]
  rfl

theorem name_char_facts (c : Char) (h : name_char c = true) :
    c ≠ '+' ∧ c ≠ '_' ∧ c ≠ '(' ∧ c ≠ ')' ∧ c ≠ ':' ∧ kb_goodchar c = true := by
  refine ⟨?_, ?_, ?_, ?_, ?_, ?_⟩
  · rintro rfl; revert h; decide
  · rintro rfl; revert h; decide
  · rintro rfl; revert h; decide
  · rintro rfl; revert h; decide
  · rintro rfl; revert h; decide
  · simp only [name_char, Char.isAlphanum, Bool.or_eq_true] at h
    simp only [kb_goodchar, Bool.or_eq_true]
    tauto

theorem group_char_facts (c : Char) (h : group_char c = true) :
    c ≠ '(' ∧ c ≠ ')' ∧ c ≠ ':' ∧ (c = '+' ∨ c = '_' ∨ name_char c = true) := by
  refine ⟨?_, ?_, ?_, ?_⟩
  · rintro rfl; revert h; decide
  · rintro rfl; revert h; decide
  · rintro rfl; revert h; decide
  · simp only [group_char, Bool.or_eq_true, beq_iff_eq] at h
    simp only [name_char, Bool.or_eq_true, beq_iff_eq]
    tauto

theorem digit_facts (c : Char) (h : c.isDigit = true) : c ≠ '+' ∧ c ≠ '_' := by
  refine ⟨?_, ?_⟩
  · rintro rfl; revert h; decide
  · rintro rfl; revert h; decide

/-- A separator read inside parentheses changes nothing. -/
theorem parse_char_sep_inside (index : Int) (s : Scan) (c : Char)
    (hc : c = '+' ∨ c = '_') (hp : s.paren ≠ 0) :
    kb_parse_char index s c = Outcome.next s := by
  simp [kb_parse_char, hc, hp]

/-- A name character read inside parentheses in state `ok` changes nothing. -/
theorem parse_char_name_inside (index : Int) (s : Scan) (c : Char)
    (hc : name_char c = true) (hs : s.state = TokState.ok) (hp : s.paren ≠ 0) :
    kb_parse_char index s c = Outcome.next s := by
  obtain ⟨h1, h2, h3, h4, h5, h6⟩ := name_char_facts c hc
  simp [kb_parse_char, h1, h2, h3, h4, h5, h6, hs, hp]

/-- A name character read at depth 0 in state `ok` with room left is stored. -/
theorem parse_char_name_store (index : Int) (s : Scan) (c : Char)
    (hc : name_char c = true) (hs : s.state = TokState.ok) (hp : s.paren = 0)
    (hl : s.symlen < 15) :
    kb_parse_char index s c
      = Outcome.next { s with sym := s.sym.take s.symlen ++ [c], symlen := s.symlen + 1 } := by
  obtain ⟨h1, h2, h3, h4, h5, h6⟩ := name_char_facts c hc
  simp [kb_parse_char, h1, h2, h3, h4, h5, h6, hs, hp, hl]

/-- Outside state `ok`, a character that is no separator changes nothing. -/
theorem parse_char_not_ok (index : Int) (s : Scan) (c : Char)
    (h1 : c ≠ '+') (h2 : c ≠ '_') (hs : s.state ≠ TokState.ok) :
    kb_parse_char index s c = Outcome.next s := by
  simp [kb_parse_char, h1, h2, hs]

theorem parse_loop_append_next (index : Int) (cs rest : List Char) (s s1 : Scan)
    (h : kb_parse_loop index s cs = Outcome.next s1) :
    kb_parse_loop index s (cs ++ rest) = kb_parse_loop index s1 rest := by
  induction cs generalizing s with
  | nil =>
    simp only [kb_parse_loop, Outcome.next.injEq] at h
    simp [h]
  | cons c cs ih =>
    simp only [kb_parse_loop, List.cons_append] at h ⊢
    cases hc : kb_parse_char index s c with
    | ret r => rw [hc] at h; exact absurd h (by simp)
    | next s2 =>
      rw [hc] at h
      exact ih s2 h

/-- Reading the rest of a group in state `ok`: when the characters close `depth` open
parentheses above a depth `p ≥ 0`, the locals come back with depth `p` and are
otherwise unchanged. -/
theorem parse_loop_group_tail (index : Int) (cs : List Char) (depth : Nat) (s : Scan)
    (p : Int) (hs : s.state = TokState.ok) (hp : 0 ≤ p) (hg : group_tail cs depth = true) :
    kb_parse_loop index { s with paren := p + depth } cs = Outcome.next { s with paren := p } := by
  induction cs generalizing depth with
  | nil =>
    simp only [group_tail, beq_iff_eq] at hg
    subst hg
    simp [kb_parse_loop]
  | cons c cs ih =>
    cases depth with
    | zero => simp [group_tail] at hg
    | succ d =>
      have hne : p + ((d + 1 : Nat) : Int) ≠ 0 := by omega
      simp only [group_tail] at hg
      simp only [kb_parse_loop]
      by_cases h1 : c = '('
      · subst h1
        simp only [if_true] at hg
        have e : kb_parse_char index { s with paren := p + ((d + 1 : Nat) : Int) } '('
            = Outcome.next { s with paren := p + ((d + 2 : Nat) : Int) } := by
          simp [kb_parse_char, hs]
          omega
        rw [e]
        exact ih (d + 2) hg
      · by_cases h2 : c = ')'
        · subst h2
          simp only [if_true, show ¬ (')' = '(') by decide, if_false] at hg
          have e : kb_parse_char index { s with paren := p + ((d + 1 : Nat) : Int) } ')'
              = Outcome.next { s with paren := p + (d : Int) } := by
            simp [kb_parse_char, hs]
            omega
          rw [e]
          exact ih d hg
        · simp only [h1, h2, if_false, Bool.and_eq_true] at hg
          obtain ⟨g1, g2, g3, g4⟩ := group_char_facts c hg.1
          have e : kb_parse_char index { s with paren := p + ((d + 1 : Nat) : Int) } c
              = Outcome.next { s with paren := p + ((d + 1 : Nat) : Int) } := by
            rcases g4 with g4 | g4 | g4
            · exact parse_char_sep_inside index _ c (Or.inl g4) hne
            · exact parse_char_sep_inside index _ c (Or.inr g4) hne
            · exact parse_char_name_inside index _ c g4 hs hne
          rw [e]
          exact ih (d + 1) hg.2

/-- A whole group read in state `ok` at a depth `≥ 0` leaves the locals unchanged. -/
theorem parse_loop_group (index : Int) (g : List Char) (s : Scan)
    (hs : s.state = TokState.ok) (hp : 0 ≤ s.paren) (hg : is_group g = true) :
    kb_parse_loop index s g = Outcome.next s := by
  cases g with
  | nil => simp [is_group] at hg
  | cons c cs =>
    simp only [is_group, Bool.and_eq_true, beq_iff_eq] at hg
    obtain ⟨hc, ht⟩ := hg
    subst hc
    have e : kb_parse_char index s '(' = Outcome.next { s with paren := s.paren + ((1 : Nat) : Int) } := by
      simp [kb_parse_char, hs]
    simp only [kb_parse_loop, e]
    exact parse_loop_group_tail index cs 1 s s.paren hs hp ht

/-- Name characters read at depth 0 in state `ok` are appended while they fit. -/
theorem parse_loop_name_more (index : Int) (cs : List Char) (s : Scan)
    (hs : s.state = TokState.ok) (hp : s.paren = 0) (hl : s.sym.length = s.symlen)
    (hfit : s.symlen + cs.length ≤ 15) (hcs : cs.all name_char = true) :
    kb_parse_loop index s cs
      = Outcome.next { s with sym := s.sym ++ cs, symlen := s.symlen + cs.length } := by
  induction cs generalizing s with
  | nil => simp [kb_parse_loop]
  | cons c cs ih =>
    simp only [List.all_cons, Bool.and_eq_true] at hcs
    simp only [List.length_cons] at hfit
    have e := parse_char_name_store index s c hcs.1 hs hp (by omega)
    simp only [kb_parse_loop, e]
    have ht : s.sym.take s.symlen = s.sym := by
      rw [← hl]; exact List.take_length s.sym
    have step := ih { s with sym := s.sym.take s.symlen ++ [c], symlen := s.symlen + 1 }
      hs hp (by simp [ht, hl]) (by simp only []; omega) hcs.2
    rw [step]
    simp [ht, Nat.add_assoc, Nat.add_comm 1]

/-- A non-empty name read from a fresh accumulator (`symlen = 0`, whatever `sym` holds). -/
theorem parse_loop_name (index : Int) (cs : List Char) (s : Scan)
    (hs : s.state = TokState.ok) (hp : s.paren = 0) (hl : s.symlen = 0)
    (hne : cs ≠ []) (hfit : cs.length ≤ 15) (hcs : cs.all name_char = true) :
    kb_parse_loop index s cs
      = Outcome.next { s with sym := cs, symlen := cs.length } := by
  cases cs with
  | nil => exact absurd rfl hne
  | cons c cs =>
    simp only [List.all_cons, Bool.and_eq_true] at hcs
    simp only [List.length_cons] at hfit
    have e := parse_char_name_store index s c hcs.1 hs hp (by omega)
    simp only [kb_parse_loop, e, hl, List.take_zero, List.nil_append]
    have step := parse_loop_name_more index cs
      { s with sym := [c], symlen := 0 + 1 } hs hp (by simp) (by simp only []; omega) hcs.2
    rw [step]
    simp [Nat.add_comm]

/-- In state `skip`, digits change nothing. -/
theorem parse_loop_digits (index : Int) (ds : List Char) (s : Scan)
    (hs : s.state = TokState.skip) (hds : ds.all Char.isDigit = true) :
    kb_parse_loop index s ds = Outcome.next s := by
  induction ds with
  | nil => simp [kb_parse_loop]
  | cons c cs ih =>
    simp only [List.all_cons, Bool.and_eq_true] at hds
    obtain ⟨h1, h2⟩ := digit_facts c hds.1
    have e := parse_char_not_ok index s c h1 h2 (by rw [hs]; decide)
    simp only [kb_parse_loop, e]
    exact ih hds.2

theorem suffix_state_ne_broken (o : Option (List Char)) : suffix_state o ≠ TokState.broken := by
  cases o <;> simp [suffix_state]

/-- The `:` suffix of a token read in state `ok`. -/
theorem parse_loop_suffix (index : Int) (o : Option (List Char)) (s : Scan)
    (hs : s.state = TokState.ok) (ho : suffix_wf o = true) :
    kb_parse_loop index s (suffix_chars o) = Outcome.next { s with state := suffix_state o } := by
  cases o with
  | none =>
    simp only [suffix_chars, kb_parse_loop, suffix_state]
    simp [← hs]
  | some ds =>
    have e : kb_parse_char index s ':' = Outcome.next { s with state := TokState.skip } := by
      simp [kb_parse_char, hs]
    simp only [suffix_chars, kb_parse_loop, e, suffix_state]
    exact parse_loop_digits index ds _ rfl ho

/-- A well-formed token read from a fresh accumulator: afterwards `sym` holds its name,
the depth is 0 and the state is `ok` or `skip`. -/
theorem parse_loop_token (index : Int) (t : Token) (s : Scan)
    (hs : s.state = TokState.ok) (hp : s.paren = 0) (hl : s.symlen = 0)
    (ht : t.wf = true) :
    kb_parse_loop index s t.chars
      = Outcome.next { s with sym := t.name, symlen := t.name.length,
                              state := suffix_state t.suffix } := by
  simp only [Token.wf, Bool.and_eq_true, Bool.not_eq_true', decide_eq_true_eq,
    Bool.or_eq_true, List.isEmpty_iff] at ht
  obtain ⟨⟨⟨⟨h1, h2⟩, h3⟩, h4⟩, h5⟩ := ht
  have hne : t.name ≠ [] := by
    intro h; simp [h] at h1
  unfold Token.chars
  rw [parse_loop_append_next index _ _ s _ (parse_loop_name index t.name s hs hp hl hne h2 h3)]
  have hg : kb_parse_loop index { s with sym := t.name, symlen := t.name.length } t.group
      = Outcome.next { s with sym := t.name, symlen := t.name.length } := by
    rcases h4 with h4 | h4
    · rw [h4]; simp [kb_parse_loop]
    · exact parse_loop_group index t.group _ hs (by simp [hp]) h4
  rw [parse_loop_append_next index _ _ _ _ hg]
  exact parse_loop_suffix index t.suffix _ hs h5

/-- The scan of the tokens that follow an already read token `t`: the parse picks the
`k`-th listed name counted from `t`, if there is one. -/
theorem parse_more (result0 : List Char) (more : List (Char × Token)) (t : Token)
    (found : Int) (k : Nat)
    (hmore : more.all (fun p => (p.1 == '+' || p.1 == '_') && p.2.wf) = true) :
    kb_parse_end (found + k) result0
        (kb_parse_loop (found + k) (tok_scan t found) (more_chars more))
      = match (ident_names t more)[k]? with
        | some n => (0, n)
        | none => (1, result0) := by
  induction more generalizing t found k with
  | nil =>
    simp only [more_chars, kb_parse_loop, kb_parse_end, tok_scan, ident_names, List.map_nil]
    by_cases hg : t.name ∈ exclusion_set
    · have hb : ¬ (kb_goodsym t.name = true) := by rw [kb_goodsym_iff]; simpa using hg
      simp [hb, hg, List.filter_cons]
    · have hb : kb_goodsym t.name = true := by rw [kb_goodsym_iff]; exact hg
      simp only [hb, suffix_state_ne_broken, ne_eq, not_false_eq_true, and_self, if_true]
      cases k with
      | zero => simp [hg, List.filter_cons]
      | succ j =>
        have hne : ¬ (found = found + ((j + 1 : Nat) : Int)) := by omega
        simp [hne, hg, List.filter_cons]
        omega
  | cons p more ih =>
    simp only [List.all_cons, Bool.and_eq_true, Bool.or_eq_true, beq_iff_eq] at hmore
    obtain ⟨⟨hsep, hwf⟩, hrest⟩ := hmore
    simp only [more_chars, kb_parse_loop]
    have hnames : ident_names t (p :: more)
        = (if t.name ∉ exclusion_set then [t.name] else []) ++ ident_names p.2 more := by
      simp only [ident_names, List.map_cons, List.filter_cons]
      by_cases hg : t.name ∈ exclusion_set <;> simp [hg]
    by_cases hg : t.name ∈ exclusion_set
    · have hb : ¬ (kb_goodsym t.name = true) := by rw [kb_goodsym_iff]; simpa using hg
      have e : kb_parse_char (found + k) (tok_scan t found) p.1
          = Outcome.next { state := TokState.ok, paren := 0, sym := [], symlen := 0,
                           found_index := found } := by
        simp [kb_parse_char, tok_scan, hsep, hb]
      have tok := parse_loop_token (found + k) p.2
        { state := TokState.ok, paren := 0, sym := [], symlen := 0, found_index := found }
        rfl rfl rfl hwf
      simp only [e]
      rw [parse_loop_append_next _ _ (more_chars more) _ _ tok]
      have := ih p.2 found k hrest
      simp only [tok_scan] at this ⊢
      rw [this, hnames]
      simp [hg]
    · have hb : kb_goodsym t.name = true := by rw [kb_goodsym_iff]; exact hg
      cases k with
      | zero =>
        have e : kb_parse_char (found + ((0 : Nat) : Int)) (tok_scan t found) p.1
            = Outcome.ret t.name := by
          simp [kb_parse_char, tok_scan, hsep, hb, suffix_state_ne_broken]
        rw [e, hnames]
        simp [kb_parse_end, hg]
      | succ j =>
        have hne : ¬ (found = found + ((j + 1 : Nat) : Int)) := by omega
        have e : kb_parse_char (found + ((j + 1 : Nat) : Int)) (tok_scan t found) p.1
            = Outcome.next { state := TokState.ok, paren := 0, sym := [], symlen := 0,
                             found_index := found + 1 } := by
          simp [kb_parse_char, tok_scan, hsep, hb, suffix_state_ne_broken, hne]
          omega
        have tok := parse_loop_token (found + ((j + 1 : Nat) : Int)) p.2
          { state := TokState.ok, paren := 0, sym := [], symlen := 0, found_index := found + 1 }
          rfl rfl rfl hwf
        simp only [e]
        rw [parse_loop_append_next _ _ (more_chars more) _ _ tok]
        have := ih p.2 (found + 1) j hrest
        have hidx : found + 1 + (j : Int) = found + ((j + 1 : Nat) : Int) := by
          push_cast; ring
        rw [hidx] at this
        simp only [tok_scan] at this ⊢
        rw [this, hnames]
        simp [hg]

/-- The parse of a well-formed identifier string picks the `k`-th listed name, if there is
one, whatever the uninitialised accumulator holds. -/
theorem parse_ident (sym0 result0 : List Char) (first : Token) (more : List (Char × Token))
    (k : Nat) (hwf : ident_wf first more = true) :
    kb_parse_atom sym0 (ident_chars first more) (k : Int) result0
      = match (ident_names first more)[k]? with
        | some n => (0, n)
        | none => (1, result0) := by
  simp only [ident_wf, Bool.and_eq_true] at hwf
  unfold kb_parse_atom ident_chars
  have tok := parse_loop_token (k : Int) first (kb_parse_init sym0) rfl rfl rfl hwf.1
  rw [parse_loop_append_next _ _ (more_chars more) _ _ tok]
  have := parse_more result0 more first 0 k hwf.2
  simp only [zero_add, tok_scan] at this
  simp only [kb_parse_init]
  exact this

theorem goodchar_not_sep (c : Char) (h : kb_goodchar c = true) (h2 : c ≠ '_') :
    name_char c = true := by
  simp only [kb_goodchar, Bool.or_eq_true, beq_iff_eq] at h
  simp only [name_char, Char.isAlphanum, Bool.or_eq_true, beq_iff_eq]
  tauto

/-- One loop iteration keeps the accumulator invariant, and a `return 0` inside the loop
gives out the accumulator, which `kb_goodsym` has accepted. -/
theorem parse_char_inv (index : Int) (s : Scan) (c : Char) (hinv : sym_inv s) :
    match kb_parse_char index s c with
    | Outcome.ret r => r = s.sym ∧ kb_goodsym s.sym = true
    | Outcome.next s1 => sym_inv s1 := by
  obtain ⟨h1, h2, h3⟩ := hinv
  unfold kb_parse_char
  split_ifs with c1 c2 c3 c4 c5 c6 c7 c8 c9 c10
  · exact ⟨rfl, c3.2.2⟩
  · exact ⟨rfl, by simp, by simp⟩
  · exact ⟨rfl, by simp, by simp⟩
  · exact ⟨h1, h2, h3⟩
  · exact ⟨h1, h2, h3⟩
  · exact ⟨h1, h2, h3⟩
  · exact ⟨h1, h2, h3⟩
  · have hnc : name_char c = true := goodchar_not_sep c c8.2 (fun h => c1 (Or.inr h))
    have ht : s.sym.take s.symlen = s.sym := by
      rw [← h1]; exact List.take_length s.sym
    refine ⟨by simp [ht, h1], by simp only []; omega, ?_⟩
    intro x hx
    simp only [ht, List.mem_append, List.mem_singleton] at hx
    rcases hx with hx | hx
    · exact h3 x hx
    · rw [hx]; exact hnc
  · exact ⟨h1, h2, h3⟩
  · exact ⟨h1, h2, h3⟩
  · exact ⟨h1, h2, h3⟩

/-- The accumulator invariant along the loop. -/
theorem parse_loop_inv (index : Int) (cs : List Char) (s : Scan) (hinv : sym_inv s) :
    match kb_parse_loop index s cs with
    | Outcome.ret r => r.length ≤ 15 ∧ (∀ c ∈ r, name_char c = true) ∧ kb_goodsym r = true
    | Outcome.next s1 => sym_inv s1 := by
  induction cs generalizing s with
  | nil => simpa [kb_parse_loop] using hinv
  | cons c cs ih =>
    have hc := parse_char_inv index s c hinv
    simp only [kb_parse_loop]
    cases e : kb_parse_char index s c with
    | ret r =>
      rw [e] at hc
      simp only at hc ⊢
      obtain ⟨hr, hg⟩ := hc
      subst hr
      exact ⟨by rw [hinv.1]; exact hinv.2.1, hinv.2.2, hg⟩
    | next s1 =>
      rw [e] at hc
      exact ih s1 hc

/-! ## Lemmas on the password loop -/

/-- A key press reaches the `case XK_Return` of the `switch` exactly when its keysym is
Return or keypad Enter. -/
theorem reaches_return_iff (ksym : Nat) :
    (ignored_keysym (normalise_keysym ksym) = false ∧ normalise_keysym ksym = XK_Return)
      ↔ (ksym = XK_Return ∨ ksym = XK_KP_Enter) := by
  simp only [ignored_keysym, normalise_keysym, IsKeypadKey, IsFunctionKey, IsMiscFunctionKey,
    IsPFKey, IsPrivateKeypadKey, XK_Return, XK_KP_Enter, XK_KP_0, XK_KP_9, XK_0,
    Bool.or_eq_false_iff, Bool.and_eq_false_iff, Bool.and_eq_true, decide_eq_true_eq,
    decide_eq_false_iff_not]
  split_ifs <;> omega

theorem feedback_running (n : Nat) (st : PwState) :
    (readpw_feedback n st).running = st.running := rfl

theorem feedback_len (n : Nat) (st : PwState) : (readpw_feedback n st).len = st.len := rfl

theorem count_bell_background (n c : Nat) :
    ((List.range n).map (fun screen => XCall.XSetWindowBackground screen c)).count XCall.XBell
      = 0 := by
  rw [List.count_eq_zero]
  simp

theorem count_bell_raise (n : Nat) :
    ((List.range n).map XCall.XRaiseWindow).count XCall.XBell = 0 := by
  rw [List.count_eq_zero]
  simp

theorem feedback_bells (n : Nat) (st : PwState) :
    (readpw_feedback n st).calls.count XCall.XBell = st.calls.count XCall.XBell := by
  unfold readpw_feedback
  simp only
  split_ifs <;> simp [List.count_append, count_bell_background]

/-- The event step on a key press that reaches `case XK_Return`. -/
theorem event_enter (verify : List Nat → Bool) (n : Nat) (st : PwState) (e : XEvent)
    (he : is_enter e = true) :
    (readpw_event verify n st e).running = !verify st.secret
    ∧ (readpw_event verify n st e).len = 0
    ∧ (readpw_event verify n st e).calls.count XCall.XBell
        = st.calls.count XCall.XBell + (if verify st.secret = true then 0 else 1) := by
  cases e with
  | other => simp [is_enter] at he
  | KeyPress ksym buf =>
    simp only [is_enter, Bool.or_eq_true, beq_iff_eq] at he
    obtain ⟨h1, h2⟩ := (reaches_return_iff ksym).2 he
    have e : readpw_event verify n st (XEvent.KeyPress ksym buf)
        = readpw_feedback n (readpw_switch verify st XK_Return buf) := by
      have h3 : ignored_keysym XK_Return = false := by decide
      simp only [readpw_event, h2, h3, Bool.false_eq_true, if_false]
    rw [e, feedback_running, feedback_len, feedback_bells]
    simp only [readpw_switch, if_true, PwState.secret]
    refine ⟨trivial, trivial, ?_⟩
    by_cases hv : verify (List.take st.len st.passwd) = true
    · simp [hv]
    · simp [hv, List.count_append]

/-- The event step on anything but an Enter submission leaves `running` and the number of
bells as they were. -/
theorem event_not_enter (verify : List Nat → Bool) (n : Nat) (st : PwState) (e : XEvent)
    (he : is_enter e = false) :
    (readpw_event verify n st e).running = st.running
    ∧ (readpw_event verify n st e).calls.count XCall.XBell = st.calls.count XCall.XBell := by
  cases e with
  | other => simp [readpw_event, List.count_append, count_bell_raise]
  | KeyPress ksym buf =>
    have hne : ¬ (ignored_keysym (normalise_keysym ksym) = false
        ∧ normalise_keysym ksym = XK_Return) := by
      rw [reaches_return_iff]
      simpa [is_enter] using he
    simp only [readpw_event]
    by_cases hi : ignored_keysym (normalise_keysym ksym) = true
    · simp [hi]
    · have hr : normalise_keysym ksym ≠ XK_Return := fun h => hne ⟨by simpa using hi, h⟩
      simp only [hi, Bool.false_eq_true, if_false]
      rw [feedback_running, feedback_bells]
      simp only [readpw_switch, hr, if_false]
      split_ifs <;> exact ⟨rfl, rfl⟩

/-- One event keeps `len` within the capacity 255. -/
theorem event_len_le (verify : List Nat → Bool) (n : Nat) (st : PwState) (e : XEvent)
    (hl : st.len ≤ 255) : (readpw_event verify n st e).len ≤ 255 := by
  cases e with
  | other => simpa [readpw_event] using hl
  | KeyPress ksym buf =>
    simp only [readpw_event]
    split_ifs with hi
    · exact hl
    · simp only [feedback_len, readpw_switch]
      split_ifs
      all_goals first
        | exact hl
        | exact Nat.zero_le _
        | (show st.len - 1 ≤ 255; omega)
        | (show (st.len + buf.length) % 2 ^ 32 ≤ 255; omega)

/-- The loop over a sequence followed by one more event. -/
theorem loop_snoc (verify : List Nat → Bool) (n : Nat) (st : PwState) (evs : List XEvent)
    (e : XEvent) :
    readpw_loop verify n st (evs ++ [e])
      = if (readpw_loop verify n st evs).running = true
        then readpw_event verify n (readpw_loop verify n st evs) e
        else readpw_loop verify n st evs := by
  induction evs generalizing st with
  | nil =>
    simp only [List.nil_append, readpw_loop]
  | cons a rest ih =>
    simp only [List.cons_append, readpw_loop]
    by_cases hr : st.running = true
    · simp only [hr, if_true]
      exact ih _
    · simp [hr]

/-- The length of the buffer stays within the capacity along the loop. -/
theorem loop_len_le (verify : List Nat → Bool) (n : Nat) (st : PwState) (evs : List XEvent)
    (hl : st.len ≤ 255) : (readpw_loop verify n st evs).len ≤ 255 := by
  induction evs generalizing st with
  | nil => exact hl
  | cons a rest ih =>
    simp only [readpw_loop]
    split_ifs
    · exact ih _ (event_len_le verify n st a hl)
    · exact hl

/-! ## Lemmas on the retry loop -/

/-- The retry loop makes at most as many requests as its counter allows. -/
theorem grab_retry_count_le (request : Bool → XCall) (answer : Nat → Bool) (p : XCall → Bool)
    (hu : p (XCall.usleep 1000) = false) (len attempt : Nat) :
    (grab_retry request answer len attempt).2.countP p ≤ len := by
  induction len generalizing attempt with
  | zero => simp [grab_retry]
  | succ n ih =>
    simp only [grab_retry]
    split_ifs with h
    · simp only [List.countP_cons, List.countP_nil]
      split_ifs <;> omega
    · have hrec := ih (attempt + 1)
      rw [List.countP_cons, List.countP_cons, hu]
      by_cases hp : p (request false) = true
      · simp only [hp, if_true, Bool.false_eq_true, if_false, Nat.add_zero]
        omega
      · simp only [hp, if_false, Bool.false_eq_true, Nat.add_zero]
        omega

/-- The retry loop makes no call but its request and `usleep`. -/
theorem grab_retry_count_zero (request : Bool → XCall) (answer : Nat → Bool)
    (p : XCall → Bool) (hu : p (XCall.usleep 1000) = false)
    (ht : p (request true) = false) (hf : p (request false) = false) (len attempt : Nat) :
    (grab_retry request answer len attempt).2.countP p = 0 := by
  induction len generalizing attempt with
  | zero => simp [grab_retry]
  | succ n ih =>
    simp only [grab_retry]
    split_ifs with h
    · simp [List.countP_cons, ht]
    · simp [List.countP_cons, hu, hf, ih (attempt + 1)]

/-- The counter is positive after the loop exactly when a request within the budget
succeeds. -/
theorem grab_retry_pos_iff (request : Bool → XCall) (answer : Nat → Bool)
    (len attempt : Nat) :
    0 < (grab_retry request answer len attempt).1
      ↔ ∃ i, i < len ∧ answer (attempt + i) = true := by
  induction len generalizing attempt with
  | zero => simp [grab_retry]
  | succ n ih =>
    simp only [grab_retry]
    split_ifs with h
    · simp only [Nat.zero_lt_succ, true_iff]
      exact ⟨0, Nat.zero_lt_succ n, by simpa using h⟩
    · rw [ih (attempt + 1)]
      constructor
      · rintro ⟨i, hi, ha⟩
        exact ⟨i + 1, by omega, by rw [← ha]; congr 1; omega⟩
      · rintro ⟨i, hi, ha⟩
        cases i with
        | zero => exact absurd (by simpa using ha) h
        | succ j => exact ⟨j, by omega, by rw [← ha]; congr 1; omega⟩

/-- Request number `j` is made when it is within the budget and all earlier ones failed. -/
theorem grab_retry_reaches (request : Bool → XCall) (answer : Nat → Bool) (p : XCall → Bool)
    (ht : p (request true) = true) (hf : p (request false) = true) (len attempt j : Nat)
    (hj : j < len) (hfail : ∀ i, i < j → answer (attempt + i) = false) :
    j < (grab_retry request answer len attempt).2.countP p := by
  induction len generalizing attempt j with
  | zero => omega
  | succ n ih =>
    simp only [grab_retry]
    split_ifs with h
    · cases j with
      | zero => simp [List.countP_cons, ht]
      | succ k =>
        have := hfail 0 (Nat.zero_lt_succ k)
        rw [Nat.add_zero] at this
        rw [this] at h
        exact absurd h (by decide)
    · cases j with
      | zero => simp [List.countP_cons, hf]
      | succ k =>
        have := ih (attempt + 1) k (by omega) (fun i hi => by
          have := hfail (i + 1) (by omega)
          rw [← this]; congr 1; omega)
        simp only [List.countP_cons, hf, if_true]
        omega

/-- A loop that ends with a positive counter ends with its successful request. -/
theorem grab_retry_success_last (request : Bool → XCall) (answer : Nat → Bool)
    (len attempt : Nat) (h : 0 < (grab_retry request answer len attempt).1) :
    ∃ before, (grab_retry request answer len attempt).2 = before ++ [request true] := by
  induction len generalizing attempt with
  | zero => simp [grab_retry] at h
  | succ n ih =>
    simp only [grab_retry] at h ⊢
    split_ifs at h ⊢ with ha
    · exact ⟨[], rfl⟩
    · obtain ⟨before, hb⟩ := ih (attempt + 1) h
      exact ⟨request false :: XCall.usleep 1000 :: before, by rw [hb]; rfl⟩

theorem pointer_attempts_append (a b : List XCall) :
    pointer_attempts (a ++ b) = pointer_attempts a + pointer_attempts b := by
  simp [pointer_attempts, List.countP_append]

theorem keyboard_attempts_append (a b : List XCall) :
    keyboard_attempts (a ++ b) = keyboard_attempts a + keyboard_attempts b := by
  simp [keyboard_attempts, List.countP_append]

theorem pointer_loop_attempts (ptr : Nat → Bool) :
    pointer_attempts (grab_retry XCall.XGrabPointer ptr 1000 0).2 ≤ 1000
    ∧ keyboard_attempts (grab_retry XCall.XGrabPointer ptr 1000 0).2 = 0 :=
  ⟨grab_retry_count_le _ _ _ (by decide) _ _,
   grab_retry_count_zero _ _ _ (by decide) (by decide) (by decide) _ _⟩

theorem keyboard_loop_attempts (kbd : Nat → Bool) :
    keyboard_attempts (grab_retry XCall.XGrabKeyboard kbd 1000 0).2 ≤ 1000
    ∧ pointer_attempts (grab_retry XCall.XGrabKeyboard kbd 1000 0).2 = 0 :=
  ⟨grab_retry_count_le _ _ _ (by decide) _ _,
   grab_retry_count_zero _ _ _ (by decide) (by decide) (by decide) _ _⟩

/-- The function `lockscreen` past its two early returns, in terms of the two loops. -/
theorem lockscreen_eq (screen : Int) (ptr kbd : Nat → Bool) (running : Bool)
    (hs : 0 ≤ screen) :
    lockscreen false true screen ptr kbd running
      = if running = true ∧ 0 < (grab_retry XCall.XGrabPointer ptr 1000 0).1 then
          if 0 < (grab_retry XCall.XGrabKeyboard kbd 1000 0).1 then
            { lock := some { screen := screen }, running := true,
              calls := (grab_retry XCall.XGrabPointer ptr 1000 0).2
                ++ (grab_retry XCall.XGrabKeyboard kbd 1000 0).2 ++ [XCall.XSelectInput] }
          else
            { lock := none, running := false,
              calls := (grab_retry XCall.XGrabPointer ptr 1000 0).2
                ++ (grab_retry XCall.XGrabKeyboard kbd 1000 0).2
                ++ [XCall.XUngrabPointer, XCall.XFreeColors, XCall.XFreePixmap,
                    XCall.XDestroyWindow] }
        else
          { lock := none, running := false,
            calls := (grab_retry XCall.XGrabPointer ptr 1000 0).2
              ++ [XCall.XUngrabPointer, XCall.XFreeColors, XCall.XFreePixmap,
                  XCall.XDestroyWindow] } := by
  have hs2 : ¬ (screen < 0) := by omega
  unfold lockscreen unlockscreen
  simp only [Bool.false_eq_true, false_or, hs2, if_false, gt_iff_lt]
  by_cases h1 : running = true ∧ 0 < (grab_retry XCall.XGrabPointer ptr 1000 0).1
  · simp only [h1, and_self, if_true]
    by_cases h2 : 0 < (grab_retry XCall.XGrabKeyboard kbd 1000 0).1
    · simp [h1.1, h2]
    · simp [h1.1, h2]
  · simp only [h1, if_false]
    by_cases hr : running = true
    · have h3 : ¬ (0 < (grab_retry XCall.XGrabPointer ptr 1000 0).1) := fun h => h1 ⟨hr, h⟩
      simp [hr, h3]
    · have hr2 : running = false := by simpa using hr
      simp [hr2]

theorem lockscreen_acquired (screen : Int) (ptr kbd : Nat → Bool) (hs : 0 ≤ screen)
    (h1 : 0 < (grab_retry XCall.XGrabPointer ptr 1000 0).1)
    (h2 : 0 < (grab_retry XCall.XGrabKeyboard kbd 1000 0).1) :
    lockscreen false true screen ptr kbd true
      = { lock := some { screen := screen }, running := true,
          calls := (grab_retry XCall.XGrabPointer ptr 1000 0).2
            ++ (grab_retry XCall.XGrabKeyboard kbd 1000 0).2 ++ [XCall.XSelectInput] } := by
  rw [lockscreen_eq screen ptr kbd true hs, if_pos ⟨rfl, h1⟩, if_pos h2]

theorem lockscreen_keyboard_failed (screen : Int) (ptr kbd : Nat → Bool) (hs : 0 ≤ screen)
    (h1 : 0 < (grab_retry XCall.XGrabPointer ptr 1000 0).1)
    (h2 : ¬ (0 < (grab_retry XCall.XGrabKeyboard kbd 1000 0).1)) :
    lockscreen false true screen ptr kbd true
      = { lock := none, running := false,
          calls := (grab_retry XCall.XGrabPointer ptr 1000 0).2
            ++ (grab_retry XCall.XGrabKeyboard kbd 1000 0).2 ++ unlock_calls } := by
  rw [lockscreen_eq screen ptr kbd true hs, if_pos ⟨rfl, h1⟩, if_neg h2]
  rfl

theorem lockscreen_skipped (screen : Int) (ptr kbd : Nat → Bool) (running : Bool)
    (hs : 0 ≤ screen)
    (h : ¬ (running = true ∧ 0 < (grab_retry XCall.XGrabPointer ptr 1000 0).1)) :
    lockscreen false true screen ptr kbd running
      = { lock := none, running := false,
          calls := (grab_retry XCall.XGrabPointer ptr 1000 0).2 ++ unlock_calls } := by
  rw [lockscreen_eq screen ptr kbd running hs, if_neg h]
  rfl

theorem keyboard_attempts_acquired (ptr kbd : Nat → Bool) :
    keyboard_attempts ((grab_retry XCall.XGrabPointer ptr 1000 0).2
        ++ (grab_retry XCall.XGrabKeyboard kbd 1000 0).2 ++ [XCall.XSelectInput])
      = keyboard_attempts (grab_retry XCall.XGrabKeyboard kbd 1000 0).2 := by
  rw [keyboard_attempts_append, keyboard_attempts_append, (pointer_loop_attempts ptr).2]
  have : keyboard_attempts [XCall.XSelectInput] = 0 := by decide
  omega

theorem keyboard_attempts_failed (ptr kbd : Nat → Bool) :
    keyboard_attempts ((grab_retry XCall.XGrabPointer ptr 1000 0).2
        ++ (grab_retry XCall.XGrabKeyboard kbd 1000 0).2 ++ unlock_calls)
      = keyboard_attempts (grab_retry XCall.XGrabKeyboard kbd 1000 0).2 := by
  rw [keyboard_attempts_append, keyboard_attempts_append, (pointer_loop_attempts ptr).2]
  have : keyboard_attempts unlock_calls = 0 := by decide
  omega

theorem keyboard_attempts_skipped (ptr : Nat → Bool) :
    keyboard_attempts ((grab_retry XCall.XGrabPointer ptr 1000 0).2 ++ unlock_calls) = 0 := by
  rw [keyboard_attempts_append, (pointer_loop_attempts ptr).2]
  decide

theorem pointer_attempts_acquired (ptr kbd : Nat → Bool) :
    pointer_attempts ((grab_retry XCall.XGrabPointer ptr 1000 0).2
        ++ (grab_retry XCall.XGrabKeyboard kbd 1000 0).2 ++ [XCall.XSelectInput])
      = pointer_attempts (grab_retry XCall.XGrabPointer ptr 1000 0).2 := by
  rw [pointer_attempts_append, pointer_attempts_append, (keyboard_loop_attempts kbd).2]
  have : pointer_attempts [XCall.XSelectInput] = 0 := by decide
  omega

theorem pointer_attempts_failed (ptr kbd : Nat → Bool) :
    pointer_attempts ((grab_retry XCall.XGrabPointer ptr 1000 0).2
        ++ (grab_retry XCall.XGrabKeyboard kbd 1000 0).2 ++ unlock_calls)
      = pointer_attempts (grab_retry XCall.XGrabPointer ptr 1000 0).2 := by
  rw [pointer_attempts_append, pointer_attempts_append, (keyboard_loop_attempts kbd).2]
  have : pointer_attempts unlock_calls = 0 := by decide
  omega

theorem pointer_attempts_skipped (ptr : Nat → Bool) :
    pointer_attempts ((grab_retry XCall.XGrabPointer ptr 1000 0).2 ++ unlock_calls)
      = pointer_attempts (grab_retry XCall.XGrabPointer ptr 1000 0).2 := by
  rw [pointer_attempts_append]
  have : pointer_attempts unlock_calls = 0 := by decide
  omega

theorem keyboard_loop_reaches (kbd : Nat → Bool) (j : Nat) (hj : j < 1000)
    (hfail : ∀ i, i < j → kbd i = false) :
    j < keyboard_attempts (grab_retry XCall.XGrabKeyboard kbd 1000 0).2 :=
  grab_retry_reaches XCall.XGrabKeyboard kbd
    (fun c => c == XCall.XGrabKeyboard true || c == XCall.XGrabKeyboard false)
    (by decide) (by decide) 1000 0 j hj (by simpa using hfail)

/-! ## Claims on the parser -/

/-- C1 (parser round trip). For every identifier string made of well-formed tokens joined by
`+` or `_` (at least one token; each a non-empty name of at most 15 alphanumeric or `-`
characters, then optionally a balanced group, then optionally `:` and digits), with
`names` the token names outside the exclusion set in order: for `i < length names`,
`kb_parse_atom` returns 0 and writes `names[i]` to `result`; for `i ≥ length names` it
returns 1 and leaves `result` as it was. This holds whatever the uninitialised array
`sym` holds on entry. -/
theorem kb_parse_atom_round_trip (sym0 result0 : List Char) (first : Token)
    (more : List (Char × Token)) (i : Nat) (hwf : ident_wf first more = true) :
    (∀ h : i < (ident_names first more).length,
        kb_parse_atom sym0 (ident_chars first more) (i : Int) result0
          = (0, (ident_names first more).get ⟨i, h⟩)) ∧
    ((ident_names first more).length ≤ i →
        kb_parse_atom sym0 (ident_chars first more) (i : Int) result0 = (1, result0)) := by
  have key := parse_ident sym0 result0 first more i hwf
  constructor
  · intro h
    rw [key, List.getElem?_eq_getElem h]
    rfl
  · intro h
    rw [key, List.getElem?_eq_none h]

/-- Witness for C1: `pc+us+inet(evdev)` gives `us` at index 0 and NotFound at index 1;
`us(dvorak):2` gives `us` at index 0. -/
theorem kb_parse_atom_round_trip_witness :
    ident_wf example_first example_more = true
    ∧ ident_chars example_first example_more = "pc+us+inet(evdev)".toList
    ∧ kb_parse_atom [] "pc+us+inet(evdev)".toList 0 [] = (0, "us".toList)
    ∧ kb_parse_atom [] "pc+us+inet(evdev)".toList 1 [] = (1, [])
    ∧ ident_wf example_dvorak [] = true
    ∧ ident_chars example_dvorak [] = "us(dvorak):2".toList
    ∧ kb_parse_atom [] "us(dvorak):2".toList 0 [] = (0, "us".toList) :=
  ⟨by decide, by decide,
   (kb_parse_atom_round_trip [] [] example_first example_more 0 (by decide)).1 (by decide),
   (kb_parse_atom_round_trip [] [] example_first example_more 1 (by decide)).2 (by decide),
   by decide, by decide,
   (kb_parse_atom_round_trip [] [] example_dvorak [] 0 (by decide)).1 (by decide)⟩

/-- C9 (what a successful parse writes). With the accumulator `sym` empty at the start, for
every identifier string and every index, when `kb_parse_atom` returns 0 the name it writes
to `result` has at most 15 characters, consists of alphanumeric and `-` characters only,
and is not in the exclusion set. -/
theorem kb_parse_atom_result_safe (symbols : List Char) (index : Int)
    (result0 r : List Char) (h : kb_parse_atom [] symbols index result0 = (0, r)) :
    r.length ≤ 15 ∧ (∀ c ∈ r, c.isAlphanum = true ∨ c = '-') ∧ r ∉ exclusion_set := by
  have hinit : sym_inv (kb_parse_init []) := ⟨rfl, by simp [kb_parse_init], by simp [kb_parse_init]⟩
  have hl := parse_loop_inv index symbols (kb_parse_init []) hinit
  have hname : ∀ l : List Char, (∀ c ∈ l, name_char c = true) →
      ∀ c ∈ l, c.isAlphanum = true ∨ c = '-' := by
    intro l hl c hc
    have := hl c hc
    simpa [name_char] using this
  unfold kb_parse_atom at h
  cases e : kb_parse_loop index (kb_parse_init []) symbols with
  | ret r1 =>
    rw [e] at h hl
    simp only [kb_parse_end, Prod.mk.injEq, true_and] at h
    subst h
    exact ⟨hl.1, hname _ hl.2.1, (kb_goodsym_iff _).1 hl.2.2⟩
  | next s1 =>
    rw [e] at h hl
    simp only [kb_parse_end] at h
    split_ifs at h with c1 c2
    · simp only [Prod.mk.injEq, true_and] at h
      subst h
      exact ⟨by rw [hl.1]; exact hl.2.1, hname _ hl.2.2, (kb_goodsym_iff _).1 c1.2.2⟩
    · simp at h
    · simp at h

/-- Witness for C9: the successful parse of `pc+us+inet(evdev)` at index 0 writes `us`. -/
theorem kb_parse_atom_result_safe_witness :
    kb_parse_atom [] "pc+us+inet(evdev)".toList 0 [] = (0, "us".toList)
    ∧ "us".toList.length ≤ 15
    ∧ "us".toList ∉ exclusion_set :=
  ⟨by decide,
   (kb_parse_atom_result_safe "pc+us+inet(evdev)".toList 0 [] "us".toList (by decide)).1,
   (kb_parse_atom_result_safe "pc+us+inet(evdev)".toList 0 [] "us".toList (by decide)).2.2⟩

/-- C10, as stated, fails: a `:` or a `.` read inside a parenthesised group in state `ok`
changes the state to `skip` or `broken`; the closing `)` is then not counted, the depth
stays at 1, and the parse of `us(a:b)` and of `us(a.b)` fails where the parse of `us(ab)`
gives `us`. -/
theorem kb_parse_atom_group_content_matters :
    kb_parse_atom [] "us(ab)".toList 0 [] = (0, "us".toList)
    ∧ kb_parse_atom [] "us(a:b)".toList 0 [] = (1, [])
    ∧ kb_parse_atom [] "us(a.b)".toList 0 [] = (1, [])
    ∧ kb_parse_loop 0 (kb_parse_init []) "us(a:b)".toList
        = Outcome.next { state := TokState.skip, paren := 1, sym := "us".toList, symlen := 2,
                         found_index := 0 }
    ∧ kb_parse_loop 0 (kb_parse_init []) "us(a.b)".toList
        = Outcome.next { state := TokState.broken, paren := 1, sym := "us".toList, symlen := 2,
                         found_index := 0 }
    ∧ kb_parse_loop 0 (kb_parse_init []) "us(ab)".toList
        = Outcome.next { state := TokState.ok, paren := 0, sym := "us".toList, symlen := 2,
                         found_index := 0 } := by
  decide

/-- C10, amended. In `kb_parse_atom`, a character read in state `ok` while the parenthesis
depth is above 0 that is alphanumeric, `-`, `_` or `+` leaves every local unchanged; so a
balanced group made of such characters and nested parentheses, opened in state `ok` at a
depth `≥ 0`, is read with the state still `ok` and the depth back where it was at the
matching `)`, and the result of the parse is the same for any two such groups standing
at the same place of the string. -/
theorem kb_parse_atom_group_ignored (sym0 pre post result0 : List Char) (index : Int)
    (s : Scan) (c : Char) (g1 g2 : List Char)
    (hpre : kb_parse_loop index (kb_parse_init sym0) pre = Outcome.next s)
    (hs : s.state = TokState.ok) (hp : 0 ≤ s.paren)
    (hc : group_char c = true) (hg1 : is_group g1 = true) (hg2 : is_group g2 = true) :
    (∀ s1 : Scan, s1.state = TokState.ok → 0 < s1.paren →
        kb_parse_char index s1 c = Outcome.next s1)
    ∧ kb_parse_loop index (kb_parse_init sym0) (pre ++ g1) = Outcome.next s
    ∧ kb_parse_atom sym0 (pre ++ g1 ++ post) index result0
        = kb_parse_atom sym0 (pre ++ g2 ++ post) index result0 := by
  refine ⟨?_, ?_, ?_⟩
  · intro s1 h1 h2
    obtain ⟨_, _, _, g4⟩ := group_char_facts c hc
    have hne : s1.paren ≠ 0 := by omega
    rcases g4 with g4 | g4 | g4
    · exact parse_char_sep_inside index s1 c (Or.inl g4) hne
    · exact parse_char_sep_inside index s1 c (Or.inr g4) hne
    · exact parse_char_name_inside index s1 c g4 h1 hne
  · rw [parse_loop_append_next index pre g1 _ s hpre]
    exact parse_loop_group index g1 s hs hp hg1
  · have e1 : kb_parse_loop index (kb_parse_init sym0) (pre ++ g1) = Outcome.next s := by
      rw [parse_loop_append_next index pre g1 _ s hpre]
      exact parse_loop_group index g1 s hs hp hg1
    have e2 : kb_parse_loop index (kb_parse_init sym0) (pre ++ g2) = Outcome.next s := by
      rw [parse_loop_append_next index pre g2 _ s hpre]
      exact parse_loop_group index g2 s hs hp hg2
    unfold kb_parse_atom
    rw [parse_loop_append_next index (pre ++ g1) post _ s e1,
      parse_loop_append_next index (pre ++ g2) post _ s e2]

/-- Witness for C10 amended: after `pc+inet`, the groups `(evdev)` and `(a_b+(c))` are both
read without any change, and the parse of the whole string at index 0 is the same. -/
theorem kb_parse_atom_group_ignored_witness :
    kb_parse_loop 0 (kb_parse_init []) "pc+inet".toList
        = Outcome.next { state := TokState.ok, paren := 0, sym := "inet".toList, symlen := 4,
                         found_index := 0 }
    ∧ is_group "(evdev)".toList = true
    ∧ is_group "(a_b+(c))".toList = true
    ∧ kb_parse_loop 0 (kb_parse_init []) ("pc+inet".toList ++ "(evdev)".toList)
        = Outcome.next { state := TokState.ok, paren := 0, sym := "inet".toList, symlen := 4,
                         found_index := 0 }
    ∧ kb_parse_atom [] ("pc+inet".toList ++ "(evdev)".toList ++ "+us".toList) 0 []
        = kb_parse_atom [] ("pc+inet".toList ++ "(a_b+(c))".toList ++ "+us".toList) 0 [] :=
  ⟨by decide, by decide, by decide,
   (kb_parse_atom_group_ignored [] "pc+inet".toList "+us".toList [] 0
      { state := TokState.ok, paren := 0, sym := "inet".toList, symlen := 4, found_index := 0 }
      'e' "(evdev)".toList "(a_b+(c))".toList
      (by decide) rfl (by decide) (by decide) (by decide) (by decide)).2.1,
   (kb_parse_atom_group_ignored [] "pc+inet".toList "+us".toList [] 0
      { state := TokState.ok, paren := 0, sym := "inet".toList, symlen := 4, found_index := 0 }
      'e' "(evdev)".toList "(a_b+(c))".toList
      (by decide) rfl (by decide) (by decide) (by decide) (by decide)).2.2⟩

/-- C6, as stated, fails: a Keyboard that holds the label `us` still holds `us`, not
`unknown`, after a `kb_load_layout` whose `kb_parse_atom` fails (here group index 1 of
`pc+us+inet(evdev)`, which lists one name only). -/
theorem kb_load_layout_keeps_stale_label :
    (kb_parse_atom [] "pc+us+inet(evdev)".toList 1 "us".toList).1 = 1
    ∧ (kb_load_layout [] "pc+us+inet(evdev)".toList 1
        { device_id := 0x0100, layout := "us".toList }).layout = "us".toList
    ∧ "us".toList ≠ "unknown".toList := by
  decide

/-- C6, amended. For every keyboard state, every identifier string and every group index
for which `kb_parse_atom` fails (returns non-zero), `kb_load_layout` leaves the layout
label held by the Keyboard as it was; so the label is the sentinel `unknown` when the
Keyboard held `unknown` before, as it does from its set-up in `main` until the first
successful parse. -/
theorem kb_load_layout_failure_keeps_label (sym0 kbsC : List Char) (group : Nat)
    (kb : Keyboard) (hfail : (kb_parse_atom sym0 kbsC (group : Int) kb.layout).1 ≠ 0) :
    (kb_load_layout sym0 kbsC group kb).layout = kb.layout
    ∧ (kb.layout = "unknown".toList →
        (kb_load_layout sym0 kbsC group kb).layout = "unknown".toList)
    ∧ (kb = main_kb → (kb_load_layout sym0 kbsC group kb).layout = "unknown".toList) := by
  have key : (kb_load_layout sym0 kbsC group kb).layout = kb.layout := by
    unfold kb_load_layout kb_parse_atom at *
    simp only
    cases e : kb_parse_loop (group : Int) (kb_parse_init sym0) kbsC with
    | ret r => rw [e] at hfail; simp [kb_parse_end] at hfail
    | next s1 =>
      rw [e] at hfail
      simp only [kb_parse_end] at hfail ⊢
      split_ifs at hfail ⊢ with c1 c2
      · simp at hfail
      · rfl
      · rfl
  refine ⟨key, ?_, ?_⟩
  · intro h; rw [key, h]
  · intro h; rw [key, h]; rfl

/-- Witness for C6 amended: the first load after the set-up in `main`, with a failing
parse, shows `unknown`. -/
theorem kb_load_layout_failure_keeps_label_witness :
    (kb_parse_atom [] "pc+us+inet(evdev)".toList 1 main_kb.layout).1 ≠ 0
    ∧ (kb_load_layout [] "pc+us+inet(evdev)".toList 1 main_kb).layout = "unknown".toList :=
  ⟨by decide,
   (kb_load_layout_failure_keeps_label [] "pc+us+inet(evdev)".toList 1 main_kb
      (by decide)).2.2 rfl⟩

/-! ## Claims on the password loop -/

/-- The loop started in a running state: what rejected Enter submissions leave behind. -/
theorem loop_rejected_enters (verify : List Nat → Bool) (n : Nat) (evs : List XEvent)
    (st : PwState) (hrun : st.running = true)
    (hrej : ∀ pre e post, evs = pre ++ e :: post → is_enter e = true →
      verify (readpw_loop verify n st pre).secret = false) :
    (readpw_loop verify n st evs).running = true
    ∧ (readpw_loop verify n st evs).calls.count XCall.XBell
        = st.calls.count XCall.XBell + evs.countP is_enter
    ∧ (∀ pre e post, evs = pre ++ e :: post → is_enter e = true →
        (readpw_loop verify n st (pre ++ [e])).len = 0) := by
  induction evs generalizing st with
  | nil =>
    refine ⟨hrun, by simp [readpw_loop], ?_⟩
    intro pre e post h
    simp at h
  | cons a rest ih =>
    have hstep : (readpw_event verify n st a).running = true
        ∧ (readpw_event verify n st a).calls.count XCall.XBell
            = st.calls.count XCall.XBell + (if is_enter a = true then 1 else 0) := by
      by_cases ha : is_enter a = true
      · have hv : verify st.secret = false := hrej [] a rest rfl ha
        obtain ⟨h1, _, h3⟩ := event_enter verify n st a ha
        rw [h1, h3, hv]
        simp [ha]
      · have ha2 : is_enter a = false := by simpa using ha
        obtain ⟨h1, h2⟩ := event_not_enter verify n st a ha2
        rw [h1, h2, hrun]
        simp [ha2]
    have hrej2 : ∀ pre e post, rest = pre ++ e :: post → is_enter e = true →
        verify (readpw_loop verify n (readpw_event verify n st a) pre).secret = false := by
      intro pre e post h he
      have := hrej (a :: pre) e post (by rw [h]; rfl) he
      simpa [readpw_loop, hrun] using this
    obtain ⟨i1, i2, i3⟩ := ih (readpw_event verify n st a) hstep.1 hrej2
    refine ⟨?_, ?_, ?_⟩
    · simpa [readpw_loop, hrun] using i1
    · simp only [readpw_loop, hrun, if_true, i2, hstep.2, List.countP_cons]
      omega
    · intro pre e post h he
      cases pre with
      | nil =>
        simp only [List.nil_append, List.cons.injEq] at h
        obtain ⟨h1, _⟩ := h
        subst h1
        simp only [List.nil_append, readpw_loop, hrun, if_true]
        exact (event_enter verify n st a he).2.1
      | cons b pre2 =>
        simp only [List.cons_append, List.cons.injEq] at h
        obtain ⟨h1, h2⟩ := h
        subst h1
        simp only [List.cons_append, readpw_loop, hrun, if_true]
        exact i3 pre2 e post h2 he

/-- C2 (the loop stops on an accepted Enter only). For every sequence of events `pre`
after which the loop of `readpw` is still running, every further event `e` and every
verifier: the loop stops at `e` (`running` becomes false) if and only if `e` is a key
press whose keysym is Return or keypad Enter and the verifier accepts the bytes held in
the secret buffer, `passwd[0..len)`; and these key presses are the ones whose normalised
keysym is Return. -/
theorem readpw_stops_iff (verify : List Nat → Bool) (nscreens : Nat) (passwd0 : List Nat)
    (pre : List XEvent) (e : XEvent)
    (hrun : (readpw verify nscreens passwd0 pre).running = true) :
    ((readpw verify nscreens passwd0 (pre ++ [e])).running = false
      ↔ (is_enter e = true ∧ verify (readpw verify nscreens passwd0 pre).secret = true))
    ∧ (is_enter e = true
      ↔ ∃ ksym buf, e = XEvent.KeyPress ksym buf ∧ normalise_keysym ksym = XK_Return) := by
  constructor
  · unfold readpw at hrun ⊢
    rw [loop_snoc]
    simp only [hrun, if_true]
    by_cases he : is_enter e = true
    · rw [(event_enter verify nscreens _ e he).1]
      simp [he]
    · have he2 : is_enter e = false := by simpa using he
      rw [(event_not_enter verify nscreens _ e he2).1, hrun]
      simp [he2]
  · cases e with
    | other => simp [is_enter]
    | KeyPress ksym buf =>
      simp only [is_enter, Bool.or_eq_true, beq_iff_eq, XEvent.KeyPress.injEq]
      constructor
      · intro h
        exact ⟨ksym, buf, ⟨rfl, rfl⟩, ((reaches_return_iff ksym).2 h).2⟩
      · rintro ⟨k, b, ⟨rfl, rfl⟩, h⟩
        revert h
        simp only [normalise_keysym, IsKeypadKey, XK_Return, XK_KP_Enter, XK_KP_0, XK_KP_9,
          XK_0, Bool.and_eq_true, decide_eq_true_eq]
        split_ifs <;> omega

/-- Witness for C2: after `s`, `3`, `c` the loop is running; keypad Enter then stops it
under the verifier that accepts `s3c`, and a further `x` instead does not. -/
theorem readpw_stops_iff_witness :
    (readpw verify_secret 1 (List.replicate 256 0) [key 115, key 51, key 99]).running = true
    ∧ (readpw verify_secret 1 (List.replicate 256 0)
        ([key 115, key 51, key 99] ++ [XEvent.KeyPress XK_KP_Enter [13]])).running = false
    ∧ (readpw verify_secret 1 (List.replicate 256 0)
        ([key 115, key 51, key 99] ++ [key 120])).running = true :=
  ⟨by decide,
   ((readpw_stops_iff verify_secret 1 (List.replicate 256 0) [key 115, key 51, key 99]
      (XEvent.KeyPress XK_KP_Enter [13]) (by decide)).1).2 (by decide),
   by
     have h := (readpw_stops_iff verify_secret 1 (List.replicate 256 0)
       [key 115, key 51, key 99] (key 120) (by decide)).1
     cases hr : (readpw verify_secret 1 (List.replicate 256 0)
         ([key 115, key 51, key 99] ++ [key 120])).running with
     | true => rfl
     | false => exact absurd (h.1 hr).1 (by decide)⟩

/-- C3 (buffer bound). For every sequence of events processed by `readpw`, after any
number of them the length `len` of the secret buffer is at most 255; and a printable-key
event that carries `num ≤ 32` bytes with `len + num ≥ 256` changes neither `len` nor the
bytes `passwd[0..len)` (nor any byte of `passwd`). -/
theorem readpw_buffer_bound (verify : List Nat → Bool) (nscreens : Nat) (passwd0 : List Nat)
    (evs : List XEvent) :
    (∀ k : Nat, (readpw verify nscreens passwd0 (evs.take k)).len ≤ 255)
    ∧ (∀ e : XEvent, e.num ≤ 32 → is_printable e = true →
        256 ≤ (readpw verify nscreens passwd0 evs).len + e.num →
        (readpw_event verify nscreens (readpw verify nscreens passwd0 evs) e).len
            = (readpw verify nscreens passwd0 evs).len
        ∧ (readpw_event verify nscreens (readpw verify nscreens passwd0 evs) e).secret
            = (readpw verify nscreens passwd0 evs).secret
        ∧ (readpw_event verify nscreens (readpw verify nscreens passwd0 evs) e).passwd
            = (readpw verify nscreens passwd0 evs).passwd) := by
  constructor
  · intro k
    exact loop_len_le verify nscreens _ _ (Nat.zero_le _)
  · intro e hnum hp hfull
    have hl : (readpw verify nscreens passwd0 evs).len ≤ 255 :=
      loop_len_le verify nscreens _ _ (Nat.zero_le _)
    generalize readpw verify nscreens passwd0 evs = st at hfull hl ⊢
    cases e with
    | other => simp [is_printable] at hp
    | KeyPress ksym buf =>
      simp only [is_printable, Bool.and_eq_true, Bool.not_eq_true', bne_iff_ne, ne_eq] at hp
      obtain ⟨⟨⟨⟨⟨h1, h2⟩, h3⟩, h4⟩, _⟩, _⟩ := hp
      simp only [XEvent.num] at hnum hfull
      have hguard : ¬ ((st.len + buf.length) % 2 ^ 32 < 256) := by omega
      have e1 : readpw_switch verify st (normalise_keysym ksym) buf = st := by
        simp only [readpw_switch, h2, h3, h4, if_false, hguard, and_false]
      simp only [readpw_event, h1, Bool.false_eq_true, if_false, e1, PwState.secret]
      exact ⟨rfl, rfl, rfl⟩

/-- Witness for C3: seven key presses of 32 bytes fill the buffer to 224 bytes; an eighth
would make 256 and is dropped whole. -/
theorem readpw_buffer_bound_witness :
    (readpw verify_secret 1 (List.replicate 256 0)
        (List.replicate 7 (XEvent.KeyPress 97 (List.replicate 32 97)))).len = 224
    ∧ (readpw_event verify_secret 1
        (readpw verify_secret 1 (List.replicate 256 0)
          (List.replicate 7 (XEvent.KeyPress 97 (List.replicate 32 97))))
        (XEvent.KeyPress 97 (List.replicate 32 97))).len = 224 :=
  ⟨by decide,
   by
     have h := ((readpw_buffer_bound verify_secret 1 (List.replicate 256 0)
       (List.replicate 7 (XEvent.KeyPress 97 (List.replicate 32 97)))).2
       (XEvent.KeyPress 97 (List.replicate 32 97)) (by decide) (by decide) (by decide)).1
     rw [h]
     decide⟩

/-- C4 (a rejected Enter never ends the loop). For every `N` and every sequence of events
with exactly `N` Enter submissions, each of which the verifier rejects: the loop of
`readpw` is still running after the last event, `XBell` has been called exactly `N`
times, and the secret buffer is empty (`len = 0`) right after each of the Enters. -/
theorem readpw_rejected_enters (verify : List Nat → Bool) (nscreens : Nat)
    (passwd0 : List Nat) (evs : List XEvent) (N : Nat)
    (hN : evs.countP is_enter = N)
    (hrej : ∀ pre e post, evs = pre ++ e :: post → is_enter e = true →
      verify (readpw verify nscreens passwd0 pre).secret = false) :
    (readpw verify nscreens passwd0 evs).running = true
    ∧ (readpw verify nscreens passwd0 evs).calls.count XCall.XBell = N
    ∧ (∀ pre e post, evs = pre ++ e :: post → is_enter e = true →
        (readpw verify nscreens passwd0 (pre ++ [e])).len = 0) := by
  have h := loop_rejected_enters verify nscreens evs
    { running := true, len := 0, llen := 0, passwd := passwd0, calls := [] } rfl hrej
  refine ⟨h.1, ?_, h.2.2⟩
  rw [← hN]
  simpa [readpw] using h.2.1

/-- Witness for C4: two wrong secrets, `x` and `s3`, each submitted with Enter, under the
verifier that accepts `s3c`: still running, two bells. -/
theorem readpw_rejected_enters_witness :
    (readpw verify_secret 1 (List.replicate 256 0)
      [key 120, XEvent.KeyPress XK_Return [13], key 115, key 51,
       XEvent.KeyPress XK_KP_Enter [13]]).running = true
    ∧ (readpw verify_secret 1 (List.replicate 256 0)
      [key 120, XEvent.KeyPress XK_Return [13], key 115, key 51,
       XEvent.KeyPress XK_KP_Enter [13]]).calls.count XCall.XBell = 2 := by
  have h := readpw_rejected_enters verify_secret 1 (List.replicate 256 0)
    [key 120, XEvent.KeyPress XK_Return [13], key 115, key 51,
     XEvent.KeyPress XK_KP_Enter [13]] 2 (by decide)
    (by
      intro pre e post hsplit he
      have hcases : pre = [key 120] ∨ pre = [key 120, XEvent.KeyPress XK_Return [13],
          key 115, key 51] := by
        rcases pre with _ | ⟨a, _ | ⟨b, _ | ⟨c, _ | ⟨d, _ | ⟨f, _ | ⟨g, t⟩⟩⟩⟩⟩⟩ <;>
          simp only [List.nil_append, List.cons_append, List.cons.injEq] at hsplit
        · obtain ⟨h1, _⟩ := hsplit; subst h1; exact absurd he (by decide)
        · obtain ⟨h1, _, _⟩ := hsplit; subst h1; exact Or.inl rfl
        · obtain ⟨_, _, h1, _⟩ := hsplit; subst h1; exact absurd he (by decide)
        · obtain ⟨_, _, _, h1, _⟩ := hsplit; subst h1; exact absurd he (by decide)
        · obtain ⟨h1, h2, h3, h4, _, _⟩ := hsplit
          subst h1 h2 h3 h4; exact Or.inr rfl
        · obtain ⟨_, _, _, _, _, h1⟩ := hsplit
          exact absurd h1 (by simp)
        · obtain ⟨_, _, _, _, _, h1⟩ := hsplit
          exact absurd h1 (by simp)
      rcases hcases with h1 | h1 <;> subst h1 <;> decide)
  exact ⟨h.1, h.2.1⟩

/-! ## Claims on grab acquisition -/

/-- C5, as stated, fails. With `running` already false on entry, `lockscreen` makes no
keyboard grab attempt although the pointer grab succeeds at once, and reports the output
as not acquired although both grabs would succeed; so in the loop of `main` the result
for screen 1, whose grabs succeed at once, is `NULL` when screen 0 never gets its
pointer, and a `Lock` when screen 0 is acquired. -/
theorem lockscreen_depends_on_running :
    (lockscreen false true 1 (fun _ => true) (fun _ => true) false).lock = none
    ∧ keyboard_attempts
        (lockscreen false true 1 (fun _ => true) (fun _ => true) false).calls = 0
    ∧ (lockscreen false true 1 (fun _ => true) (fun _ => true) true).lock
        = some { screen := 1 }
    ∧ (main_lock_loop
        [{ malloc_ok := true, ptr := fun _ => false, kbd := fun _ => true },
         { malloc_ok := true, ptr := fun _ => true, kbd := fun _ => true }] 0 true).1
        = [none, none]
    ∧ (main_lock_loop
        [{ malloc_ok := true, ptr := fun _ => true, kbd := fun _ => true },
         { malloc_ok := true, ptr := fun _ => true, kbd := fun _ => true }] 0 true).1
        = [some { screen := 0 }, some { screen := 1 }] := by
  have hfail : ¬ (0 < (grab_retry XCall.XGrabPointer (fun _ => false) 1000 0).1) := by
    rw [grab_retry_pos_iff]
    simp
  have h0 : lockscreen false true ((0 : Nat) : Int) (fun _ => false) (fun _ => true) true
      = { lock := none, running := false,
          calls := (grab_retry XCall.XGrabPointer (fun _ => false) 1000 0).2
            ++ unlock_calls } :=
    lockscreen_skipped _ _ _ _ (by decide) (fun h => hfail h.2)
  refine ⟨by decide, by decide, by decide, ?_, by decide⟩
  simp only [main_lock_loop, h0]
  decide

/-- C5, amended. For every output, when the global `running` is still true on entry (no
earlier `lockscreen` of the session has failed): whenever pointer acquisition succeeds
within its 1000 attempts, keyboard acquisition is attempted with its own budget of 1000
(attempt `j < 1000` is made when all earlier ones failed), and the output is reported
acquired (non-NULL `Lock`) exactly when both its pointer grab and its keyboard grab
succeed within their budgets, which is also the value `running` is left with. When
`running` is false on entry, no keyboard grab is attempted, the output is reported failed
and `running` stays false. -/
theorem lockscreen_acquires_iff (screen : Int) (ptr kbd : Nat → Bool) (running : Bool)
    (hs : 0 ≤ screen) :
    (running = true →
      ((∃ i, i < 1000 ∧ ptr i = true) →
        ∀ j, j < 1000 → (∀ i, i < j → kbd i = false) →
          j < keyboard_attempts (lockscreen false true screen ptr kbd running).calls)
      ∧ keyboard_attempts (lockscreen false true screen ptr kbd running).calls ≤ 1000
      ∧ ((lockscreen false true screen ptr kbd running).lock = some { screen := screen }
          ↔ (∃ i, i < 1000 ∧ ptr i = true) ∧ (∃ j, j < 1000 ∧ kbd j = true))
      ∧ ((lockscreen false true screen ptr kbd running).lock = none
          ↔ ¬ ((∃ i, i < 1000 ∧ ptr i = true) ∧ (∃ j, j < 1000 ∧ kbd j = true)))
      ∧ (lockscreen false true screen ptr kbd running).running
          = (lockscreen false true screen ptr kbd running).lock.isSome)
    ∧ (running = false →
      (lockscreen false true screen ptr kbd running).lock = none
      ∧ keyboard_attempts (lockscreen false true screen ptr kbd running).calls = 0
      ∧ (lockscreen false true screen ptr kbd running).running = false) := by
  have hp := grab_retry_pos_iff XCall.XGrabPointer ptr 1000 0
  have hk := grab_retry_pos_iff XCall.XGrabKeyboard kbd 1000 0
  simp only [Nat.zero_add] at hp hk
  have hka := (keyboard_loop_attempts kbd).1
  constructor
  · intro hr
    subst hr
    by_cases h1 : 0 < (grab_retry XCall.XGrabPointer ptr 1000 0).1
    · by_cases h2 : 0 < (grab_retry XCall.XGrabKeyboard kbd 1000 0).1
      · rw [lockscreen_acquired screen ptr kbd hs h1 h2]
        refine ⟨?_, ?_, ?_, ?_, rfl⟩
        · intro _ j hj hfail
          show j < keyboard_attempts _
          rw [keyboard_attempts_acquired]
          exact keyboard_loop_reaches kbd j hj hfail
        · show keyboard_attempts _ ≤ 1000
          rw [keyboard_attempts_acquired]
          exact hka
        · exact ⟨fun _ => ⟨hp.1 h1, hk.1 h2⟩, fun _ => rfl⟩
        · exact ⟨fun h => absurd h (by simp), fun h => absurd ⟨hp.1 h1, hk.1 h2⟩ h⟩
      · rw [lockscreen_keyboard_failed screen ptr kbd hs h1 h2]
        refine ⟨?_, ?_, ?_, ?_, rfl⟩
        · intro _ j hj hfail
          show j < keyboard_attempts _
          rw [keyboard_attempts_failed]
          exact keyboard_loop_reaches kbd j hj hfail
        · show keyboard_attempts _ ≤ 1000
          rw [keyboard_attempts_failed]
          exact hka
        · exact ⟨fun h => absurd h (by simp), fun h => absurd (hk.2 h.2) h2⟩
        · exact ⟨fun _ h => h2 (hk.2 h.2), fun _ => rfl⟩
    · rw [lockscreen_skipped screen ptr kbd true hs (fun h => h1 h.2)]
      refine ⟨?_, ?_, ?_, ?_, rfl⟩
      · intro hc
        exact absurd (hp.2 hc) h1
      · show keyboard_attempts _ ≤ 1000
        rw [keyboard_attempts_skipped]
        exact Nat.zero_le _
      · exact ⟨fun h => absurd h (by simp), fun h => absurd (hp.2 h.1) h1⟩
      · exact ⟨fun _ h => h1 (hp.2 h.1), fun _ => rfl⟩
  · intro hr
    subst hr
    rw [lockscreen_skipped screen ptr kbd false hs (fun h => absurd h.1 (by decide))]
    exact ⟨rfl, keyboard_attempts_skipped ptr, rfl⟩

/-- Witness for C5 amended: on screen 1 with `running` true, a pointer grab that succeeds
at the third attempt and a keyboard grab that succeeds at the second give a `Lock`. -/
theorem lockscreen_acquires_iff_witness :
    (0 : Int) ≤ 1
    ∧ (lockscreen false true 1 (fun i => decide (i = 2)) (fun j => decide (j = 1)) true).lock
        = some { screen := 1 }
    ∧ 1 < keyboard_attempts
        (lockscreen false true 1 (fun i => decide (i = 2)) (fun j => decide (j = 1))
          true).calls :=
  ⟨by decide,
   ((lockscreen_acquires_iff 1 (fun i => decide (i = 2)) (fun j => decide (j = 1)) true
      (by decide)).1 rfl).2.2.1.2 ⟨⟨2, by decide, by decide⟩, ⟨1, by decide, by decide⟩⟩,
   ((lockscreen_acquires_iff 1 (fun i => decide (i = 2)) (fun j => decide (j = 1)) true
      (by decide)).1 rfl).1 ⟨2, by decide, by decide⟩ 1 (by decide)
      (by intro i hi; have : i = 0 := by omega
          subst this; decide)⟩

/-- C7 (no pointer grab is left behind). For every output, if the pointer grab succeeds
within its 1000 attempts and every one of the 1000 keyboard grab attempts fails,
`lockscreen` returns `NULL` for that output, and after the successful `XGrabPointer` it
calls `XUngrabPointer` (through `unlockscreen`) before it returns. -/
theorem lockscreen_releases_pointer (screen : Int) (ptr kbd : Nat → Bool) (running : Bool)
    (hs : 0 ≤ screen) (hptr : ∃ i, i < 1000 ∧ ptr i = true)
    (hkbd : ∀ j, j < 1000 → kbd j = false) :
    (lockscreen false true screen ptr kbd running).lock = none
    ∧ ∃ before after,
        (lockscreen false true screen ptr kbd running).calls
          = before ++ XCall.XGrabPointer true :: after
        ∧ XCall.XUngrabPointer ∈ after := by
  have hp := grab_retry_pos_iff XCall.XGrabPointer ptr 1000 0
  have hk := grab_retry_pos_iff XCall.XGrabKeyboard kbd 1000 0
  simp only [Nat.zero_add] at hp hk
  have h1 : 0 < (grab_retry XCall.XGrabPointer ptr 1000 0).1 := hp.2 hptr
  have h2 : ¬ (0 < (grab_retry XCall.XGrabKeyboard kbd 1000 0).1) := by
    rw [hk]
    rintro ⟨j, hj, hc⟩
    rw [hkbd j hj] at hc
    exact absurd hc (by decide)
  obtain ⟨before, hb⟩ := grab_retry_success_last XCall.XGrabPointer ptr 1000 0 h1
  by_cases hr : running = true
  · subst hr
    rw [lockscreen_keyboard_failed screen ptr kbd hs h1 h2]
    refine ⟨rfl, before, (grab_retry XCall.XGrabKeyboard kbd 1000 0).2 ++ unlock_calls, ?_, ?_⟩
    · show _ ++ _ ++ unlock_calls = _
      rw [hb]
      simp
    · simp [unlock_calls]
  · rw [lockscreen_skipped screen ptr kbd running hs (fun h => hr h.1)]
    refine ⟨rfl, before, unlock_calls, ?_, ?_⟩
    · show _ ++ unlock_calls = _
      rw [hb]
      simp
    · simp [unlock_calls]

/-- Witness for C7: the pointer is grabbed at the second attempt and the keyboard never;
the calls end with `XUngrabPointer` and the release of the window. -/
theorem lockscreen_releases_pointer_witness :
    (0 : Int) ≤ 0
    ∧ (lockscreen false true 0 (fun i => decide (i = 1)) (fun _ => false) true).lock = none
    ∧ ∃ before after,
        (lockscreen false true 0 (fun i => decide (i = 1)) (fun _ => false) true).calls
          = before ++ XCall.XGrabPointer true :: after
        ∧ XCall.XUngrabPointer ∈ after :=
  ⟨by decide,
   lockscreen_releases_pointer 0 (fun i => decide (i = 1)) (fun _ => false) true
      (by decide) ⟨1, by decide, by decide⟩ (fun _ _ => rfl)⟩

/-- C8 (bounded retries). Whatever the grab primitives answer, `lockscreen` (a total
function: it returns) makes at most 1000 pointer grab attempts and at most 1000 keyboard
grab attempts; and if all 1000 pointer grab attempts fail it makes no keyboard grab
attempt and reports the output as failed (`NULL`). -/
theorem lockscreen_bounded (dpy_null malloc_ok : Bool) (screen : Int) (ptr kbd : Nat → Bool)
    (running : Bool) :
    pointer_attempts (lockscreen dpy_null malloc_ok screen ptr kbd running).calls ≤ 1000
    ∧ keyboard_attempts (lockscreen dpy_null malloc_ok screen ptr kbd running).calls ≤ 1000
    ∧ ((∀ i, i < 1000 → ptr i = false) →
        keyboard_attempts (lockscreen dpy_null malloc_ok screen ptr kbd running).calls = 0
        ∧ (lockscreen dpy_null malloc_ok screen ptr kbd running).lock = none) := by
  by_cases h0 : dpy_null = true ∨ screen < 0
  · have e : lockscreen dpy_null malloc_ok screen ptr kbd running
        = { lock := none, running := running, calls := [] } := by
      simp [lockscreen, h0]
    rw [e]
    exact ⟨Nat.zero_le _, Nat.zero_le _, fun _ => ⟨rfl, rfl⟩⟩
  · by_cases hm : malloc_ok = false
    · have e : lockscreen dpy_null malloc_ok screen ptr kbd running
          = { lock := none, running := running, calls := [] } := by
        simp [lockscreen, h0, hm]
      rw [e]
      exact ⟨Nat.zero_le _, Nat.zero_le _, fun _ => ⟨rfl, rfl⟩⟩
    · have hd : dpy_null = false := by
        cases dpy_null
        · rfl
        · exact absurd (Or.inl rfl) h0
      have hm2 : malloc_ok = true := by simpa using hm
      have hs : 0 ≤ screen := by
        have : ¬ (screen < 0) := fun h => h0 (Or.inr h)
        omega
      subst hd hm2
      have hp := grab_retry_pos_iff XCall.XGrabPointer ptr 1000 0
      simp only [Nat.zero_add] at hp
      have hpa := (pointer_loop_attempts ptr).1
      have hka := (keyboard_loop_attempts kbd).1
      have hnone : (∀ i, i < 1000 → ptr i = false) →
          ¬ (0 < (grab_retry XCall.XGrabPointer ptr 1000 0).1) := by
        intro hall hc
        obtain ⟨i, hi, hc2⟩ := hp.1 hc
        rw [hall i hi] at hc2
        exact absurd hc2 (by decide)
      by_cases c1 : running = true ∧ 0 < (grab_retry XCall.XGrabPointer ptr 1000 0).1
      · obtain ⟨hr, h1⟩ := c1
        subst hr
        by_cases c2 : 0 < (grab_retry XCall.XGrabKeyboard kbd 1000 0).1
        · rw [lockscreen_acquired screen ptr kbd hs h1 c2]
          refine ⟨?_, ?_, fun hall => absurd h1 (hnone hall)⟩
          · show pointer_attempts _ ≤ 1000
            rw [pointer_attempts_acquired]
            exact hpa
          · show keyboard_attempts _ ≤ 1000
            rw [keyboard_attempts_acquired]
            exact hka
        · rw [lockscreen_keyboard_failed screen ptr kbd hs h1 c2]
          refine ⟨?_, ?_, fun hall => absurd h1 (hnone hall)⟩
          · show pointer_attempts _ ≤ 1000
            rw [pointer_attempts_failed]
            exact hpa
          · show keyboard_attempts _ ≤ 1000
            rw [keyboard_attempts_failed]
            exact hka
      · rw [lockscreen_skipped screen ptr kbd running hs c1]
        refine ⟨?_, ?_, fun _ => ⟨keyboard_attempts_skipped ptr, rfl⟩⟩
        · show pointer_attempts _ ≤ 1000
          rw [pointer_attempts_skipped]
          exact hpa
        · show keyboard_attempts _ ≤ 1000
          rw [keyboard_attempts_skipped]
          exact Nat.zero_le _

/-- Witness for C8: a pointer that is never granted gives `NULL` without any keyboard
grab attempt. -/
theorem lockscreen_bounded_witness :
    keyboard_attempts (lockscreen false true 0 (fun _ => false) (fun _ => true) true).calls = 0
    ∧ (lockscreen false true 0 (fun _ => false) (fun _ => true) true).lock = none :=
  (lockscreen_bounded false true 0 (fun _ => false) (fun _ => true) true).2.2 (fun _ _ => rfl)

end Slock
